import Mathlib

/-!
# Verification of the cpap-megascore core against its specification

Shallow embedding of the repository's core source files:

* `src/js/analysis/algorithms/wobble.js` — breath segmentation, flow-limitation
  flatness, arousal estimation, sample-entropy regularity and FFT periodicity;
* `src/js/analysis/engine.js` — the analyzer registry / dispatch;
* `src/js/parsers/edf.js` — the EDF container decoder.

JavaScript numbers are modelled as exact rationals (`ℚ`).  Where the source can
produce a non-finite number (NaN or ±Infinity) that matters to a claim, the
embedding tracks it explicitly (`Option ℚ` with `none` standing for a
non-finite value, or the `JSVal` type which separates NaN from the two
infinities).  `Math.sqrt` is modelled by `ratSqrt`, which is exact whenever the
argument is a square of a rational (every concrete input used below);
`Math.cos`/`Math.sin` inside the FFT are abstracted as an oracle parameter,
since no claim depends on their values.
-/

namespace Megascore

/-- JavaScript values as needed by the periodicity computation: a finite
number, `NaN`, or a signed infinity. -/
inductive JSVal where
  | fin (q : ℚ)
  | nan
  | posInf
  | negInf
deriving DecidableEq, Repr

/-- JS division `a / b` of two finite numbers: division by zero produces
`NaN` (for `0/0`) or a signed infinity. -/
def jsDiv (a b : ℚ) : JSVal :=
  if b = 0 then
    if a = 0 then .nan else if a > 0 then .posInf else .negInf
  else .fin (a / b)

/-- Multiply a JS value by a positive finite constant (used for `* 200`). -/
def jsMulPos (c : ℚ) (v : JSVal) : JSVal :=
  match v with
  | .fin q => .fin (c * q)
  | .nan => .nan
  | .posInf => .posInf
  | .negInf => .negInf

/-- JS `Math.min(c, v)` for a finite first argument: `NaN` is absorbing. -/
def jsMin (c : ℚ) (v : JSVal) : JSVal :=
  match v with
  | .fin q => .fin (min c q)
  | .nan => .nan
  | .posInf => .fin c
  | .negInf => .negInf

/-- JS `x || d` for a numeric setting: `undefined` (here `none`), `NaN` and
`0` are falsy, so they all fall back to the default `d`. -/
def jsOr (x : Option ℚ) (d : ℚ) : ℚ :=
  match x with
  | none => d
  | some q => if q = 0 then d else q

/-- `Math.sqrt`, exact on rational squares (and in particular on `0`, the only
value any theorem below evaluates it at); other arguments get a placeholder. -/
def ratSqrt (q : ℚ) : ℚ :=
  if 0 ≤ q ∧ (Nat.sqrt q.num.toNat : ℤ) ^ 2 = q.num ∧
      (Nat.sqrt q.den) ^ 2 = q.den then
    (Nat.sqrt q.num.toNat : ℚ) / (Nat.sqrt q.den : ℚ)
  else 0

/-- The analyzer configuration keys consumed by the Wobble analyzer
(`settings` in `wobble.js`).  `none` models a missing key. -/
structure WobbleSettings where
  flTopPercentage : Option ℚ := none
  flFlatnessTarget : Option ℚ := none
  arousalBaselineWindowSec : Option ℚ := none
  arousalRateIncreaseMin : Option ℚ := none
  arousalVolIncreaseMin : Option ℚ := none
deriving DecidableEq, Repr

/-! ## Breath segmentation (`wobble.js` lines 26–51)

The JS loop pushes a new breath object at every rising zero-crossing and, at a
falling zero-crossing with a breath open, mutates the most recently pushed
object (`currentBreath` aliases the last array element).  `endTime` is only
assigned when a breath is closed; the numeric `end`/`inspEnd` fields are
initialised to the start index. -/

structure Breath where
  start : ℕ
  «end» : ℕ
  inspStart : ℕ
  inspEnd : ℕ
  startTime : ℚ
  endTime : Option ℚ := none
deriving DecidableEq, Repr, Inhabited

structure SegState where
  breaths : List Breath
  inInspiration : Bool
deriving DecidableEq, Repr

/-- Rising zero-crossing at index `i` : `flowData[i] > 0 && flowData[i-1] <= 0`
(the condition of the first branch of the segmentation loop). -/
def isRising (flow : List ℚ) (i : ℕ) : Bool :=
  decide (flow.getD i 0 > 0 ∧ flow.getD (i - 1) 0 ≤ 0)

/-- Falling zero-crossing at index `i` : `flowData[i] <= 0 && flowData[i-1] > 0`
(the condition of the second branch of the segmentation loop). -/
def isFalling (flow : List ℚ) (i : ℕ) : Bool :=
  decide (flow.getD i 0 ≤ 0 ∧ flow.getD (i - 1) 0 > 0)

/-- Close the most recently pushed breath at index `i` (the JS mutation of
`currentBreath`, which aliases the last element of `breaths`). -/
def closeLast (bs : List Breath) (i : ℕ) (rate : ℚ) : List Breath :=
  match bs.reverse with
  | [] => []
  | b :: rest =>
      (({ b with inspEnd := i, «end» := i, endTime := some ((i : ℚ) / rate) } : Breath)
        :: rest).reverse

/-- One iteration of the segmentation loop at index `i` (the loop runs over
`i = 1, …, flowData.length - 1`). -/
def segStep (flow : List ℚ) (rate : ℚ) (st : SegState) (i : ℕ) : SegState :=
  if isRising flow i then
    { breaths := st.breaths ++
        [{ start := i, «end» := i, inspStart := i, inspEnd := i,
           startTime := (i : ℚ) / rate, endTime := none }],
      inInspiration := true }
  else if isFalling flow i then
    { breaths :=
        if st.inInspiration ∧ st.breaths ≠ [] then closeLast st.breaths i rate
        else st.breaths,
      inInspiration := false }
  else st

/-- The breath list produced by the segmentation loop
(`for (let i = 1; i < flowData.length; i++)`). -/
def segment (flow : List ℚ) (rate : ℚ) : List Breath :=
  ((List.range' 1 (flow.length - 1)).foldl (segStep flow rate)
    { breaths := [], inInspiration := false }).breaths

/-- All rising-crossing indices in `[1, flow.length)`, in order. -/
def risingIndices (flow : List ℚ) : List ℕ :=
  (List.range' 1 (flow.length - 1)).filter (isRising flow)

/-- The first falling-crossing index strictly after `i` (and below
`flow.length`), if any. -/
def nextClose (flow : List ℚ) (i : ℕ) : Option ℕ :=
  (List.range' (i + 1) (flow.length - (i + 1))).find? (isFalling flow)

/-- The breath the segmentation produces for the rising crossing at `i`:
closed at `nextClose` when that exists, otherwise left open (its `endTime`
is never assigned and `end`/`inspEnd` keep the placeholder start index). -/
def mkBreath (flow : List ℚ) (rate : ℚ) (i : ℕ) : Breath :=
  match nextClose flow i with
  | some j =>
      { start := i, «end» := j, inspStart := i, inspEnd := j,
        startTime := (i : ℚ) / rate, endTime := some ((j : ℚ) / rate) }
  | none =>
      { start := i, «end» := i, inspStart := i, inspEnd := i,
        startTime := (i : ℚ) / rate, endTime := none }

/-- Crossing (rising or falling) indices among the processed prefix `1..k`. -/
def crossings (flow : List ℚ) (k : ℕ) : List ℕ :=
  (List.range' 1 k).filter (fun i => isRising flow i || isFalling flow i)

/-- Whether a breath is open after the loop has processed indices `1..k`:
the most recent crossing was a rising one. -/
def openAt (flow : List ℚ) (k : ℕ) : Bool :=
  ((crossings flow k).getLast?).elim false (isRising flow)

/-- First falling crossing in `(i, k]`. -/
def nextCloseWithin (flow : List ℚ) (k i : ℕ) : Option ℕ :=
  (List.range' (i + 1) (k - i)).find? (isFalling flow)

/-- Rising crossings among the processed prefix `1..k`. -/
def risingUpTo (flow : List ℚ) (k : ℕ) : List ℕ :=
  (List.range' 1 k).filter (isRising flow)

/-- Closed form of the breath for rising index `i` after the loop has
processed indices `1..k`. -/
def mkBreathUpTo (flow : List ℚ) (rate : ℚ) (k i : ℕ) : Breath :=
  match nextCloseWithin flow k i with
  | some j =>
      { start := i, «end» := j, inspStart := i, inspEnd := j,
        startTime := (i : ℚ) / rate, endTime := some ((j : ℚ) / rate) }
  | none =>
      { start := i, «end» := i, inspStart := i, inspEnd := i,
        startTime := (i : ℚ) / rate, endTime := none }

/-! ## Flow limitation (`wobble.js` lines 53–82) -/

/-- JS `Array.prototype.slice(a, b)` for non-negative integer arguments. -/
def jsSlice (l : List ℚ) (a b : ℕ) : List ℚ :=
  (l.drop a).take (b - a)

/-- JS `findIndex`: the first index whose element satisfies the predicate,
`-1` if none does. -/
def jsFindIndex (p : ℚ → Bool) (l : List ℚ) : ℤ :=
  match l.findIdx? p with
  | some k => (k : ℤ)
  | none => -1

/-- The per-breath flatness computation of the flow-limitation loop.
`none` models the `continue` branches (breath skipped). -/
def breathFlatness? (flow : List ℚ) (topPercent targetVar : ℚ) (b : Breath) :
    Option ℚ :=
  let inspFlow := jsSlice flow b.inspStart b.inspEnd
  if inspFlow.length < 10 then none
  else
    match inspFlow.max? with
    | none => none  -- unreachable: `inspFlow.length ≥ 10` here
    | some maxFlow =>
      if maxFlow < 1 / 10 then none
      else
        let normalizedFlow := inspFlow.map (fun f => f / maxFlow)
        let topHalfStart : ℤ := jsFindIndex (fun f => decide (topPercent < f)) normalizedFlow
        let topHalfEnd : ℤ := (normalizedFlow.length : ℤ) -
          jsFindIndex (fun f => decide (topPercent < f)) normalizedFlow.reverse
        if 0 ≤ topHalfStart ∧ topHalfStart < topHalfEnd then
          let topHalf := jsSlice normalizedFlow topHalfStart.toNat topHalfEnd.toNat
          let topHalfMean := topHalf.sum / (topHalf.length : ℚ)
          let topHalfVariance :=
            (topHalf.map (fun v => (v - topHalfMean) * (v - topHalfMean))).sum /
              (topHalf.length : ℚ)
          some (max 0 (min 100 ((targetVar - topHalfVariance) / targetVar * 100)))
        else none

/-- The flow-limitation score: mean flatness over the qualifying breaths
(the loop's `continue`-skips are the `none`s of `breathFlatness?`), `0` when
no breath qualifies. -/
def flScoreOf (flow : List ℚ) (rate : ℚ) (s : WobbleSettings) : ℚ :=
  let breaths := segment flow rate
  let topPercent := jsOr s.flTopPercentage (1 / 2)
  let targetVar := jsOr s.flFlatnessTarget (1 / 20)
  let flScores := breaths.filterMap (breathFlatness? flow topPercent targetVar)
  if 0 < flScores.length then flScores.sum / (flScores.length : ℚ) else 0

/-! ## Arousal estimation (`wobble.js` lines 84–133) -/

structure BreathMetric where
  time : ℚ
  rate : ℚ
  volume : ℚ
  breathIndex : ℕ
deriving DecidableEq, Repr, Inhabited

/-- The breath-metric list: for each breath index `i ≥ 1`, the inter-breath
duration gates the metric (`continue` when `≤ 0` or `> 20`), the rate is
`60/duration` and the tidal volume is `Σ|flow|` over the inspiratory slice
divided by the sampling rate. -/
def breathMetricsOf (flow : List ℚ) (samplingRate : ℚ) (breaths : List Breath) :
    List BreathMetric :=
  (List.range' 1 (breaths.length - 1)).filterMap (fun i =>
    let breath := breaths.getD i default
    let prevBreath := breaths.getD (i - 1) default
    let breathDuration := breath.startTime - prevBreath.startTime
    if breathDuration ≤ 0 ∨ 20 < breathDuration then none
    else
      some { time := breath.startTime,
             rate := 60 / breathDuration,
             volume := ((jsSlice flow breath.inspStart breath.inspEnd).map
               (fun f => |f|)).sum / samplingRate,
             breathIndex := i })

/-- `num / den > θ` with JS division semantics: when `den = 0` the quotient
is `+∞` (true for any finite `θ`) if `num > 0`, and `-∞` or `NaN` (false)
otherwise. -/
def jsRatioGt (num den θ : ℚ) : Bool :=
  if den = 0 then decide (0 < num)
  else decide (θ < num / den)

/-- `Math.max(0, i - Math.floor(baselineWindow / (60 / rate)))`.  For every
finite `rate` (including `rate = 0`, where the JS inner quotient is `±∞` and
the outer one `0`) the JS value equals `⌊w·rate/60⌋`. -/
def baselineStartIdx (w : ℚ) (i : ℕ) (m : BreathMetric) : ℕ :=
  (max 0 ((i : ℤ) - ⌊w * m.rate / 60⌋)).toNat

/-- The arousal test for metric index `i` (the loop body before the
debounce): at least 5 baseline metrics, and a rate or volume increase over
the baseline mean above the threshold. -/
def arousalQualifies (ms : List BreathMetric) (w θr θv : ℚ) (i : ℕ) : Bool :=
  let currentMetric := ms.getD i default
  let bs := baselineStartIdx w i currentMetric
  let baselineMetrics := (ms.drop bs).take (i - bs)
  if baselineMetrics.length < 5 then false
  else
    let baselineRate := (baselineMetrics.map (fun m => m.rate)).sum /
      (baselineMetrics.length : ℚ)
    let baselineVolume := (baselineMetrics.map (fun m => m.volume)).sum /
      (baselineMetrics.length : ℚ)
    jsRatioGt (currentMetric.rate - baselineRate) baselineRate θr ||
      jsRatioGt (currentMetric.volume - baselineVolume) baselineVolume θv

/-- One iteration of the arousal loop: record the metric's time when it
qualifies, unless the previously recorded arousal is less than 15 seconds
before it (`recentArousal`). -/
def arousalStep (ms : List BreathMetric) (w θr θv : ℚ)
    (arousalList : List ℚ) (i : ℕ) : List ℚ :=
  if arousalQualifies ms w θr θv i then
    if arousalList.getLast?.elim false
        (fun tm => decide ((ms.getD i default).time - tm < 15)) then
      arousalList
    else arousalList ++ [(ms.getD i default).time]
  else arousalList

/-- The arousal loop over all metric indices. -/
def arousalScan (ms : List BreathMetric) (w θr θv : ℚ) : List ℚ :=
  (List.range ms.length).foldl (arousalStep ms w θr θv) []

def totalDurationHoursOf (flow : List ℚ) (rate : ℚ) : ℚ :=
  ((flow.length : ℚ) / rate) / 3600

/-- The reported arousal rate: `arousalList.length / totalDurationHours`,
gated on at least 10 breaths and a positive duration (else 0). -/
def arousalsOf (flow : List ℚ) (rate : ℚ) (s : WobbleSettings) : ℚ :=
  let breaths := segment flow rate
  let totalDurationHours := totalDurationHoursOf flow rate
  if 10 ≤ breaths.length ∧ 0 < totalDurationHours then
    let ms := breathMetricsOf flow rate breaths
    let w := jsOr s.arousalBaselineWindowSec 120
    let θr := jsOr s.arousalRateIncreaseMin (1 / 5)
    let θv := jsOr s.arousalVolIncreaseMin (3 / 10)
    ((arousalScan ms w θr θv).length : ℚ) / totalDurationHours
  else 0

/-! ## Minute ventilation, sample entropy, FFT (`wobble.js` lines 135–234) -/

/-- JS `Array.prototype.slice` with integer arguments of either sign. -/
def jsSliceZ (l : List ℚ) (a b : ℤ) : List ℚ :=
  let n : ℤ := l.length
  let s := if a < 0 then max 0 (n + a) else min a n
  let e := if b < 0 then max 0 (n + b) else min b n
  (l.drop s.toNat).take (e - s).toNat

/-- One iteration of the per-window loop: the three successive `if`s of the
source (onset detection, tidal-volume accumulation, inhalation reset).
State: `(breathCount, tidalVolume, inInh)`. -/
def mvWindowStep (w : List ℚ) (rate : ℚ) (st : ℕ × ℚ × Bool) (j : ℕ) :
    ℕ × ℚ × Bool :=
  let p := if w.getD j 0 > 0 ∧ w.getD (j - 1) 0 ≤ 0 then (st.1 + 1, true)
           else (st.1, st.2.2)
  let tidal := if p.2 = true ∧ w.getD j 0 > 0 then st.2.1 + |w.getD j 0| / rate
               else st.2.1
  let inh := if w.getD j 0 ≤ 0 then false else p.2
  (p.1, tidal, inh)

/-- The minute-ventilation series: a 60-second window sliding in 5-second
steps (`for (let i = 0; i < flowData.length - windowSize; i += stepSize)`);
per window the value is `tidalVolume * breathCount / 60`.
When `0 < flowData.length - windowSize` and the floored step size is `≤ 0`
(sampling rate below 0.2 Hz) the JS loop never terminates; that case is
outside every claim and the embedding returns `[]` there. -/
def minuteVentOf (flow : List ℚ) (rate : ℚ) : List ℚ :=
  let windowSize : ℤ := ⌊60 * rate⌋
  let stepSize : ℤ := ⌊5 * rate⌋
  let L : ℤ := (flow.length : ℤ) - windowSize
  if 0 < L ∧ 0 < stepSize then
    (List.range (⌈(L : ℚ) / (stepSize : ℚ)⌉.toNat)).map (fun k =>
      let i : ℤ := (k : ℤ) * stepSize
      let win := jsSliceZ flow i (i + windowSize)
      let res := (List.range' 1 (win.length - 1)).foldl (mvWindowStep win rate)
        (0, 0, false)
      (res.2.1 * (res.1 : ℚ)) / 60)
  else []

/-- The inner `for k` template comparison of `countMatches`, with the `break`
expressed as a bounded `all`. -/
def matchTemplate (s : List ℚ) (r : ℚ) (m i j : ℕ) : Bool :=
  (List.range m).all (fun k => decide (|s.getD (i + k) 0 - s.getD (j + k) 0| ≤ r))

/-- `countMatches(m)` of the source: both loop indices run strictly below
`N - m` (`for (let i = 0; i < N - m; i++) for (let j = i + 1; j < N - m; j++)`). -/
def countMatches (s : List ℚ) (r : ℚ) (m : ℕ) : ℕ :=
  let N := s.length
  ((List.range (N - m)).map (fun i =>
    ((List.range' (i + 1) (N - m - (i + 1))).filter
      (fun j => matchTemplate s r m i j)).length)).sum

/-- The pair count as the SPEC words it (for comparison with the source's
`countMatches`): index pairs `i < j` over all template start positions whose
length-`m` template lies within the series, i.e. `i + m ≤ N`. -/
def specTemplatePairCount (s : List ℚ) (r : ℚ) (m : ℕ) : ℕ :=
  ((Finset.range (s.length + 1 - m) ×ˢ Finset.range (s.length + 1 - m)).filter
    (fun p => p.1 < p.2 ∧
      ∀ k < m, |s.getD (p.1 + k) 0 - s.getD (p.2 + k) 0| ≤ r)).card

/-- The sample-entropy value. `negLn q` stands for the JS number
`-Math.log(q)`; no claim depends on the numeric value of the logarithm, so it
is kept symbolic. -/
inductive SampEnVal where
  | zero
  | negLn (q : ℚ)
deriving DecidableEq, Repr

/-- `(B === 0 || A === 0) ? 0 : -Math.log(A / B)` with `B = countMatches(2)`
and `A = countMatches(3)`. -/
def wobbleSampleEntropy (series : List ℚ) (r : ℚ) : SampEnVal :=
  let B := countMatches series r 2
  let A := countMatches series r 3
  if B = 0 ∨ A = 0 then .zero else .negLn ((A : ℚ) / (B : ℚ))

/-- The regularity output: `empty` when the minute-ventilation series is
empty (the score keeps its initial `0`), otherwise the sample entropy, from
which the reported score is the strictly decreasing map
`clamp(0,100, 100 - entropy/2.5*100)` (not needed by any claim). -/
inductive RegularityOut where
  | empty
  | score (entropy : SampEnVal)
deriving DecidableEq, Repr

/-- The regularity computation: tolerance `r = 0.2 * Math.sqrt(variance)`. -/
def regularityOf (flow : List ℚ) (rate : ℚ) : RegularityOut :=
  let minuteVent := minuteVentOf flow rate
  if 0 < minuteVent.length then
    let mvMean := minuteVent.sum / (minuteVent.length : ℚ)
    let variance := (minuteVent.map (fun v => (v - mvMean) ^ 2)).sum /
      (minuteVent.length : ℚ)
    let r := (1 / 5) * ratSqrt variance
    .score (wobbleSampleEntropy minuteVent r)
  else .empty

/-- `o.cos x` models `Math.cos (-2πx)` and `o.sin x` models
`Math.sin (-2πx)`; the FFT calls them at `x = k / N`.  The transcendental
values never decide a claim; concrete instances only exercise inputs on which
the FFT never reaches a trigonometric call. -/
structure TrigOracle where
  cos : ℚ → ℚ
  sin : ℚ → ℚ

/-- `x.filter((_, i) => i % 2 === 0)`. -/
def listEvens {α : Type} : List α → List α
  | [] => []
  | [a] => [a]
  | a :: _ :: rest => a :: listEvens rest

/-- `x.filter((_, i) => i % 2 === 1)`. -/
def listOdds {α : Type} : List α → List α
  | [] => []
  | [_] => []
  | _ :: b :: rest => b :: listOdds rest

/-- `⌈log₂ n⌉` by repeated halving (`⌈log₂ n⌉ = ⌈log₂ ⌈n/2⌉⌉ + 1` for
`n ≥ 2`); the fuel bounds the recursion depth and never runs out for
`fuel ≥ n`. -/
def ceilLog2Aux : ℕ → ℕ → ℕ
  | 0, _ => 0
  | fuel + 1, n => if n ≤ 1 then 0 else ceilLog2Aux fuel ((n + 1) / 2) + 1

/-- `Math.pow(2, Math.ceil(Math.log2(N)))`, exactly (the floating-point
logarithm is exact at every length in scope). -/
def nextPow2 (n : ℕ) : ℕ := 2 ^ ceilLog2Aux n n

/-- The butterfly recombination of the source FFT: `result[k] = even[k] + t`,
`result[k + N/2] = even[k] - t` with the twiddle factor `t` built from the
trigonometric oracle at `angle = -2πk/N`. -/
def fftCombine (o : TrigOracle) (N : ℕ) (evenL oddL : List (ℚ × ℚ)) :
    List (ℚ × ℚ) :=
  let half := (List.range (N / 2)).map (fun k =>
    let e := evenL.getD k (0, 0)
    let od := oddL.getD k (0, 0)
    let c := o.cos ((k : ℚ) / (N : ℚ))
    let s := o.sin ((k : ℚ) / (N : ℚ))
    let t : ℚ × ℚ := (c * od.1 - s * od.2, c * od.2 + s * od.1)
    ((e.1 + t.1, e.2 + t.2), (e.1 - t.1, e.2 - t.2)))
  half.map Prod.fst ++ half.map Prod.snd

/-- The recursive FFT of the source, with an explicit fuel argument for
termination.  The fuel strictly exceeds the recursion depth at every actual
call site (`jsfft`), so the embedding computes the same values as the
unbounded JS recursion. -/
def fftAux (o : TrigOracle) : ℕ → List (ℚ × ℚ) → List (ℚ × ℚ)
  | 0, x => x
  | fuel + 1, x =>
    let N := x.length
    if N ≤ 1 then x
    else if N % 2 ≠ 0 then
      fftAux o fuel (x ++ List.replicate (nextPow2 N - N) (0, 0))
    else
      fftCombine o N (fftAux o fuel (listEvens x)) (fftAux o fuel (listOdds x))

def jsfft (o : TrigOracle) (x : List (ℚ × ℚ)) : List (ℚ × ℚ) :=
  fftAux o (x.length + 2) x

/-- `pbPower`: the spectral power in the periodic-breathing band, summing
the bins whose frequency `i/(n*5)` lies inside `[0.01, 0.03]`. -/
def pbBandPower (n : ℕ) (power : List ℚ) : ℚ :=
  (((power.enum).filter (fun ip =>
    decide ((1 / 100 : ℚ) ≤ (ip.1 : ℚ) / ((n : ℚ) * 5)) &&
      decide ((ip.1 : ℚ) / ((n : ℚ) * 5) ≤ 3 / 100))).map (fun ip => ip.2)).sum

/-- The tail of the periodicity computation, given the padded length `n` and
the magnitude spectrum `power` (the first `n/2` bins):
`Math.min(100, pbPower / totalPower * 200)`. -/
def periodicityFromPower (n : ℕ) (power : List ℚ) : JSVal :=
  jsMin 100 (jsMulPos 200 (jsDiv (pbBandPower n power) power.sum))

/-- The periodicity index: detrend, pad once to the next power of two,
transform, take magnitudes of the first half of the bins, and form the
band-power ratio.  The `try/catch` of the source cannot fire in the model
(the embedded FFT is total), and `Math.sqrt` is `ratSqrt`. -/
def periodicityOf (o : TrigOracle) (flow : List ℚ) (rate : ℚ) : JSVal :=
  let minuteVent := minuteVentOf flow rate
  if 0 < minuteVent.length then
    let mvMean := minuteVent.sum / (minuteVent.length : ℚ)
    let detrended := minuteVent.map (fun v => v - mvMean)
    let n := nextPow2 detrended.length
    let paddedForFFT := detrended ++ List.replicate (n - detrended.length) 0
    let complex := paddedForFFT.map (fun v => (v, (0 : ℚ)))
    let spectrum := jsfft o complex
    let power := (spectrum.take (n / 2)).map (fun c => ratSqrt (c.1 * c.1 + c.2 * c.2))
    periodicityFromPower n power
  else .fin 0

/-- The quadruple the Wobble analyzer returns.  The JS function formats each
value with `.toFixed(1)`; that formatting layer is not modelled (no claim
mentions it), and the regularity component keeps the entropy tag from which
the numeric score is derived. -/
structure WobbleResult where
  wobbleFL : ℚ
  wobbleArousal : ℚ
  wobbleRegularity : RegularityOut
  wobblePeriodicity : JSVal
deriving DecidableEq, Repr

def WobbleAnalyzer.process (o : TrigOracle) (flowData : List ℚ)
    (samplingRate : ℚ) (settings : WobbleSettings) : WobbleResult :=
  { wobbleFL := flScoreOf flowData samplingRate settings
    wobbleArousal := arousalsOf flowData samplingRate settings
    wobbleRegularity := regularityOf flowData samplingRate
    wobblePeriodicity := periodicityOf o flowData samplingRate }

/-! ## Analysis engine (`engine.js`)

The registry is duck-typed in JS; the embedding is generic over the input
type `α` (the `(flowData, samplingRate, settings)` triple) and the result
object type `β`.  A `process` call that throws is modelled by
`Except.error` carrying the message. -/

structure Analyzer (α β : Type) where
  id : String
  process : α → Except String β

inductive EngineResult (β : Type) where
  | ok (v : β)
  | err (message : String)
deriving DecidableEq, Repr

/-- JS object property assignment `results[id] = v` on an insertion-ordered
object: an existing key keeps its position and receives the new value, a new
key is appended. -/
def objSet {γ : Type} (m : List (String × γ)) (k : String) (v : γ) :
    List (String × γ) :=
  if m.any (fun p => p.1 = k) then
    m.map (fun p => if p.1 = k then (k, v) else p)
  else m ++ [(k, v)]

/-- The observable outcome of one analyzer call: its returned object, or the
error marker `{ error: e.message }` recorded by the registry's catch. -/
def runOutcome {α β : Type} (input : α) (tool : Analyzer α β) : EngineResult β :=
  match tool.process input with
  | .ok v => .ok v
  | .error e => .err e

/-- `processSession`: run every registered analyzer in registration order;
a fault inside one analyzer is caught and stored under that analyzer's id. -/
def AnalysisEngine.processSession {α β : Type} (analyzers : List (Analyzer α β))
    (input : α) : List (String × EngineResult β) :=
  analyzers.foldl (fun results tool =>
    objSet results tool.id
      (match tool.process input with
       | .ok v => .ok v
       | .error e => .err e)) []

/-! ## EDF container decoder (`edf.js`)

Buffers are byte lists (each entry `< 256`).  Numeric header fields are
parsed with the JS `parseInt` / `parseFloat` semantics restricted to the
decimal forms EDF fields carry (hex prefixes and exponent notation are not
modelled; no claim instance contains them).  A JS number that can be `NaN`
is an `Option` (`none` = non-finite); the parser as a whole returns `none`
exactly when the JS code throws (an out-of-range read, or `toISOString` on
an invalid date). -/

def isSpaceByte (b : ℕ) : Bool :=
  b = 32 || b = 9 || b = 10 || b = 13 || b = 11 || b = 12

def trimBytes (l : List ℕ) : List ℕ :=
  ((l.dropWhile isSpaceByte).reverse.dropWhile isSpaceByte).reverse

/-- The source's `getStr` helper: decode `len` ASCII bytes at `offset` and
trim; constructing the `Uint8Array` view throws when the range exceeds the
buffer. -/
def getStr (buf : List ℕ) (off len : ℕ) : Option (List ℕ) :=
  if off + len ≤ buf.length then some (trimBytes ((buf.drop off).take len))
  else none

def isDigitByte (b : ℕ) : Bool := 48 ≤ b && b ≤ 57

def digitsToNat (l : List ℕ) : ℕ := l.foldl (fun acc b => acc * 10 + (b - 48)) 0

/-- JS `parseInt` on a decimal string: skip whitespace, optional sign, then
leading digits (trailing junk ignored); `NaN` (`none`) when no digit. -/
def parseIntBytes (l : List ℕ) : Option ℤ :=
  let l := l.dropWhile isSpaceByte
  let sign : ℤ := match l with | 45 :: _ => -1 | _ => 1
  let rest := match l with | 45 :: r => r | 43 :: r => r | r => r
  let digits := rest.takeWhile isDigitByte
  if digits.isEmpty then none
  else some (sign * (digitsToNat digits : ℤ))

def fracToRat (l : List ℕ) : ℚ :=
  l.foldr (fun b acc => (((b - 48 : ℕ) : ℚ) + acc) / 10) 0

/-- JS `parseFloat` on a plain decimal string: optional sign, integer
digits, optional fraction. -/
def parseFloatBytes (l : List ℕ) : Option ℚ :=
  let l := l.dropWhile isSpaceByte
  let sign : ℚ := match l with | 45 :: _ => -1 | _ => 1
  let rest := match l with | 45 :: r => r | 43 :: r => r | r => r
  let intDigits := rest.takeWhile isDigitByte
  let rest2 := rest.drop intDigits.length
  match rest2 with
  | 46 :: r =>
    let fracDigits := r.takeWhile isDigitByte
    if intDigits.isEmpty ∧ fracDigits.isEmpty then none
    else some (sign * ((digitsToNat intDigits : ℚ) + fracToRat fracDigits))
  | _ => if intDigits.isEmpty then none else some (sign * (digitsToNat intDigits : ℚ))

/-- JS `String.prototype.split` on a single-byte separator (empty segments
preserved). -/
def splitOnByte (b : ℕ) : List ℕ → List (List ℕ)
  | [] => [[]]
  | c :: rest =>
    let r := splitOnByte b rest
    if c = b then [] :: r
    else
      match r with
      | h :: t => (c :: h) :: t
      | [] => [[c]]

/-- Subtraction of possibly-non-finite JS numbers (`none` = non-finite). -/
def optSubQ (a b : Option ℚ) : Option ℚ :=
  match a, b with
  | some x, some y => some (x - y)
  | _, _ => none

/-- Division of possibly-non-finite JS numbers: a zero divisor yields a
non-finite result (`±∞` or `NaN`), collapsed to `none`. -/
def jsDivOpt (a b : Option ℚ) : Option ℚ :=
  match a, b with
  | some x, some y => if y = 0 then none else some (x / y)
  | _, _ => none

/-- `DataView.getInt16(idx, true)`: signed little-endian 16-bit integer. -/
def int16At (buf : List ℕ) (idx : ℕ) : ℤ :=
  let v := buf.getD idx 0 + 256 * buf.getD (idx + 1) 0
  if v < 32768 then (v : ℤ) else (v : ℤ) - 65536

structure EDFHeader where
  version : List ℕ
  patientId : List ℕ
  recordingId : List ℕ
  startDate : List ℕ
  startTime : List ℕ
  reserved : List ℕ
  headerBytes : Option ℤ
  numDataRecords : Option ℤ
  recordDurationSec : Option ℚ
  numSignals : Option ℤ
  recordingDate : ℤ × ℤ × ℤ × ℤ × ℤ × ℤ
  totalDurationMinutes : Option ℚ
deriving DecidableEq, Repr, Inhabited

structure EDFSignal where
  label : List ℕ
  transducer : List ℕ
  physicalDimension : List ℕ
  prefiltering : List ℕ
  physicalMin : Option ℚ
  physicalMax : Option ℚ
  digitalMin : Option ℤ
  digitalMax : Option ℤ
  numSamplesPerRecord : Option ℤ
  samplingRate : Option ℚ
  scaleFactor : Option ℚ
  physicalValues : List (Option ℚ)
deriving DecidableEq, Repr, Inhabited

structure EDFResult where
  metadata : EDFHeader
  signals : List EDFSignal
  flowSignal : Option EDFSignal
deriving DecidableEq, Repr, Inhabited

/-- The iteration count `numSamplesPerRecord` contributes to a JS
`for (let s = 0; s < samples; s++)` loop: `NaN` and negatives run zero
iterations. -/
def sprCount (sig : EDFSignal) : ℕ := (sig.numSamplesPerRecord.getD 0).toNat

/-- `(digitalValue - digitalMin) * scaleFactor + physicalMin`; non-finite
(`none`) as soon as any operand is. -/
def convertSample (sig : EDFSignal) (d : ℤ) : Option ℚ :=
  match sig.scaleFactor, sig.digitalMin, sig.physicalMin with
  | some sf, some dm, some pm => some (((d : ℚ) - (dm : ℚ)) * sf + pm)
  | _, _, _ => none

/-- `ToIndex` conversion of the `getInt16` offset: `NaN` indexes at `0`, a
negative offset throws a `RangeError`. -/
def jsToIndex (off : Option ℤ) : Option ℕ :=
  match off with
  | none => some 0
  | some k => if k < 0 then none else some k.toNat

/-- One `view.getInt16(offset, true); offset += 2` step; fails (throws) when
the two bytes are out of range. -/
def readSample (buf : List ℕ) (off : Option ℤ) : Option (ℤ × Option ℤ) := do
  let idx ← jsToIndex off
  if idx + 2 ≤ buf.length then
    some (int16At buf idx, off.map (fun k => k + 2))
  else none

/-- The innermost sample loop: read `n` consecutive 16-bit samples. -/
def readSamples (buf : List ℕ) : ℕ → Option ℤ → Option (List ℤ × Option ℤ)
  | 0, off => some ([], off)
  | n + 1, off => do
    let (d, off') ← readSample buf off
    let (rest, off'') ← readSamples buf n off'
    some (d :: rest, off'')

/-- One data record: for each signal in order, read its
`numSamplesPerRecord` samples and append their converted physical values. -/
def recordOnce (buf : List ℕ) :
    List EDFSignal → Option ℤ → Option (List EDFSignal × Option ℤ)
  | [], off => some ([], off)
  | sig :: rest, off => do
    let (ds, off') ← readSamples buf (sprCount sig) off
    let (rest', off'') ← recordOnce buf rest off'
    some ({ sig with physicalValues :=
      sig.physicalValues ++ ds.map (convertSample sig) } :: rest', off'')

/-- The outer record loop (`for (let record = 0; …)`). -/
def recordsLoop (buf : List ℕ) :
    ℕ → List EDFSignal → Option ℤ → Option (List EDFSignal)
  | 0, sigs, _ => some sigs
  | r + 1, sigs, off => do
    let (sigs', off') ← recordOnce buf sigs off
    recordsLoop buf r sigs' off'

def bytesToLower (l : List ℕ) : List ℕ :=
  l.map (fun b => if 65 ≤ b ∧ b ≤ 90 then b + 32 else b)

def bytesContains (hay sub : List ℕ) : Bool :=
  (List.range (hay.length + 1)).any (fun i => sub.isPrefixOf (hay.drop i))

/-- `label.toLowerCase().includes('flow') || …includes('flw')`. -/
def isFlowLabel (sig : EDFSignal) : Bool :=
  bytesContains (bytesToLower sig.label) [102, 108, 111, 119] ||
    bytesContains (bytesToLower sig.label) [102, 108, 119]

/-- The signal-header fields of signal `i` (out of `ns`).  The JS code runs
one loop per field over the column-major blocks; the embedding reads all
fields of one signal together — the same set of byte reads, hence the same
success condition and the same decoded fields. -/
def parseSignalAt (buf : List ℕ) (recordDurationSec : Option ℚ) (ns i : ℕ) :
    Option EDFSignal := do
  let label ← getStr buf (256 + i * 16) 16
  let transducer ← getStr buf (256 + ns * 16 + i * 80) 80
  let physicalDimension ← getStr buf (256 + ns * 96 + i * 8) 8
  let physicalMinS ← getStr buf (256 + ns * 104 + i * 8) 8
  let physicalMaxS ← getStr buf (256 + ns * 112 + i * 8) 8
  let digitalMinS ← getStr buf (256 + ns * 120 + i * 8) 8
  let digitalMaxS ← getStr buf (256 + ns * 128 + i * 8) 8
  let prefiltering ← getStr buf (256 + ns * 136 + i * 80) 80
  let sprS ← getStr buf (256 + ns * 216 + i * 8) 8
  let physicalMin := parseFloatBytes physicalMinS
  let physicalMax := parseFloatBytes physicalMaxS
  let digitalMin := parseIntBytes digitalMinS
  let digitalMax := parseIntBytes digitalMaxS
  let numSamplesPerRecord := parseIntBytes sprS
  some { label, transducer, physicalDimension, prefiltering,
         physicalMin, physicalMax, digitalMin, digitalMax, numSamplesPerRecord,
         samplingRate := jsDivOpt (numSamplesPerRecord.map (fun z => (z : ℚ)))
           recordDurationSec,
         scaleFactor := jsDivOpt (optSubQ physicalMax physicalMin)
           (match digitalMax, digitalMin with
            | some a, some b => some ((a : ℚ) - (b : ℚ))
            | _, _ => none),
         physicalValues := [] }

/-- The ten fixed-offset `getStr` reads of the global header, in source
order (the object-literal fields of `header` evaluate left to right, so the
first out-of-range read aborts the parse). -/
structure HeaderStrs where
  version : List ℕ
  patientId : List ℕ
  recordingId : List ℕ
  startDate : List ℕ
  startTime : List ℕ
  headerBytesS : List ℕ
  reserved : List ℕ
  numDataRecordsS : List ℕ
  recordDurationS : List ℕ
  numSignalsS : List ℕ
deriving DecidableEq, Repr

def parseHeaderStrs (buf : List ℕ) : Option HeaderStrs := do
  let version ← getStr buf 0 8
  let patientId ← getStr buf 8 80
  let recordingId ← getStr buf 88 80
  let startDate ← getStr buf 168 8
  let startTime ← getStr buf 176 8
  let headerBytesS ← getStr buf 184 8
  let reserved ← getStr buf 192 44
  let numDataRecordsS ← getStr buf 236 8
  let recordDurationS ← getStr buf 244 8
  let numSignalsS ← getStr buf 252 4
  some { version, patientId, recordingId, startDate, startTime, headerBytesS,
         reserved, numDataRecordsS, recordDurationS, numSignalsS }

/-- The `Date` constructor arguments
`(year-adjusted, month-1, day, hh||0, mm||0, ss||0)`.
`none` models `toISOString()` throwing on an invalid date, which happens
exactly when the day, month or year component of `dd.mm.yy` is unparseable
(`NaN`); the astronomical range overflow of `Date` is not modelled. -/
def mkRecordingDate (startDate startTime : List ℕ) :
    Option (ℤ × ℤ × ℤ × ℤ × ℤ × ℤ) := do
  let dateParts := splitOnByte 46 startDate
  let year ← (dateParts.get? 2).bind parseIntBytes
  let yearAdj := if year < 85 then year + 2000 else year + 1900
  let month ← (dateParts.get? 1).bind parseIntBytes
  let day ← (dateParts.get? 0).bind parseIntBytes
  let timeParts := splitOnByte 46 startTime
  let hh := ((timeParts.get? 0).bind parseIntBytes).getD 0
  let mm := ((timeParts.get? 1).bind parseIntBytes).getD 0
  let ss := ((timeParts.get? 2).bind parseIntBytes).getD 0
  some (yearAdj, month - 1, day, hh, mm, ss)

/-- `numDataRecords * recordDurationSec / 60` with `NaN` propagation. -/
def mkTotalDurationMinutes (numDataRecords : Option ℤ)
    (recordDurationSec : Option ℚ) : Option ℚ :=
  match numDataRecords, recordDurationSec with
  | some n, some d => some (((n : ℚ) * d) / 60)
  | _, _ => none

/-- Assemble the decoded header from the raw field strings. -/
def mkHeader (s : HeaderStrs) (rd : ℤ × ℤ × ℤ × ℤ × ℤ × ℤ) : EDFHeader :=
  { version := s.version, patientId := s.patientId,
    recordingId := s.recordingId, startDate := s.startDate,
    startTime := s.startTime, reserved := s.reserved,
    headerBytes := parseIntBytes s.headerBytesS,
    numDataRecords := parseIntBytes s.numDataRecordsS,
    recordDurationSec := parseFloatBytes s.recordDurationS,
    numSignals := parseIntBytes s.numSignalsS,
    totalDurationMinutes := mkTotalDurationMinutes
      (parseIntBytes s.numDataRecordsS) (parseFloatBytes s.recordDurationS),
    recordingDate := rd }

/-- `EDFParser.parse`.  Differences of representation against the source,
each noted where it occurs: `recordingDate` stores the `Date` constructor
arguments instead of the formatted ISO string, and a `none` result models
the JS function throwing (out-of-range view, or `toISOString` on an invalid
date).  The commented-out flow special case of the source (lines 119–127)
is a no-op. -/
def EDFParser.parse (buf : List ℕ) : Option EDFResult := do
  let strs ← parseHeaderStrs buf
  let rd ← mkRecordingDate strs.startDate strs.startTime
  let header := mkHeader strs rd
  let ns := (header.numSignals.getD 0).toNat
  let sigs ← (List.range ns).mapM (parseSignalAt buf header.recordDurationSec ns)
  let ndr := (header.numDataRecords.getD 0).toNat
  let sigsFinal ← recordsLoop buf ndr sigs header.headerBytes
  some { metadata := header, signals := sigsFinal,
         flowSignal := sigsFinal.find? isFlowLabel }

/-- Total samples per data record over all signals. -/
def totalSpr (sigs : List EDFSignal) : ℕ := (sigs.map sprCount).sum

/-- Samples per record contributed by the signals before index `c`. -/
def prefixSpr (sigs : List EDFSignal) (c : ℕ) : ℕ := totalSpr (sigs.take c)

/-- The converted block one signal receives from one data record when its
sample reads start at byte `base`. -/
def sampleChunk (buf : List ℕ) (sig : EDFSignal) (base : ℕ) : List (Option ℚ) :=
  (List.range (sprCount sig)).map
    (fun s => convertSample sig (int16At buf (base + 2 * s)))

/-- Closed form of `recordOnce` starting at byte `k`: each signal appends
its chunk, offsets advancing by `2·sprCount` per signal. -/
def recordChunks (buf : List ℕ) (k : ℕ) : List EDFSignal → List EDFSignal
  | [] => []
  | sig :: rest =>
    { sig with physicalValues :=
        sig.physicalValues ++ sampleChunk buf sig k } ::
      recordChunks buf (k + 2 * sprCount sig) rest

/-- Closed form of `recordsLoop`: `r` records, each advancing the byte
offset by `2·totalSpr`. -/
def loopChunks (buf : List ℕ) (k : ℕ) : ℕ → List EDFSignal → List EDFSignal
  | 0, sigs => sigs
  | r + 1, sigs =>
    loopChunks buf (k + 2 * totalSpr sigs) r (recordChunks buf k sigs)

/-- The inspiratory slice of a breath
(`flowData.slice(breath.inspStart, breath.inspEnd)`). -/
def inspFlowOf (flow : List ℚ) (b : Breath) : List ℚ :=
  jsSlice flow b.inspStart b.inspEnd

/-- The peak-normalized inspiratory samples. -/
def normFlowOf (flow : List ℚ) (b : Breath) (mx : ℚ) : List ℚ :=
  (inspFlowOf flow b).map (fun v => v / mx)

/-- Population variance of the values over the inclusive index span
`[f, l]` of a list. -/
def spanVariance (norm : List ℚ) (f l : ℕ) : ℚ :=
  let span := (norm.drop f).take (l + 1 - f)
  let m := span.sum / (span.length : ℚ)
  (span.map (fun v => (v - m) * (v - m))).sum / (span.length : ℚ)

/-- SPEC-side per-breath flatness, written from the specification's words
rather than the source, for comparison with `breathFlatness?`: a valid top
span needs a first index exceeding the threshold *and a later last such
index*, i.e. `topHalfStart + 1 < topHalfEnd` where the source's guard is
`topHalfStart < topHalfEnd`.  All other steps are as in the source. -/
def specBreathFlatness? (flow : List ℚ) (topPercent targetVar : ℚ) (b : Breath) :
    Option ℚ :=
  let inspFlow := jsSlice flow b.inspStart b.inspEnd
  if inspFlow.length < 10 then none
  else
    match inspFlow.max? with
    | none => none
    | some maxFlow =>
      if maxFlow < 1 / 10 then none
      else
        let normalizedFlow := inspFlow.map (fun f => f / maxFlow)
        let topHalfStart : ℤ := jsFindIndex (fun f => decide (topPercent < f)) normalizedFlow
        let topHalfEnd : ℤ := (normalizedFlow.length : ℤ) -
          jsFindIndex (fun f => decide (topPercent < f)) normalizedFlow.reverse
        if 0 ≤ topHalfStart ∧ topHalfStart + 1 < topHalfEnd then
          let topHalf := jsSlice normalizedFlow topHalfStart.toNat topHalfEnd.toNat
          let topHalfMean := topHalf.sum / (topHalf.length : ℚ)
          let topHalfVariance :=
            (topHalf.map (fun v => (v - topHalfMean) * (v - topHalfMean))).sum /
              (topHalf.length : ℚ)
          some (max 0 (min 100 ((targetVar - topHalfVariance) / targetVar * 100)))
        else none

/-- SPEC-side flow-limitation score built on `specBreathFlatness?`. -/
def specFlScoreOf (flow : List ℚ) (rate : ℚ) (s : WobbleSettings) : ℚ :=
  let breaths := segment flow rate
  let topPercent := jsOr s.flTopPercentage (1 / 2)
  let targetVar := jsOr s.flFlatnessTarget (1 / 20)
  let flScores := breaths.filterMap (specBreathFlatness? flow topPercent targetVar)
  if 0 < flScores.length then flScores.sum / (flScores.length : ℚ) else 0

/-! ## Concrete instances -/

/-- `n` ASCII spaces (the padding of EDF fields). -/
def spBytes (n : ℕ) : List ℕ := List.replicate n 32

/-- Pad an ASCII field to its fixed width with spaces. -/
def padF (l : List ℕ) (n : ℕ) : List ℕ := l ++ List.replicate (n - l.length) 32

/-- A minimal well-formed EDF buffer: one signal labelled `Flow`,
`physicalMin 0`, `physicalMax 10`, `digitalMin 0`, `digitalMax 10`,
2 samples per record, 1 data record holding the samples `5` and `-1`.
Header: date `01.01.20`, time `00.00.00`, header size `512`, duration `1`. -/
def bufWF : List ℕ :=
  padF [48] 8 ++ spBytes 80 ++ spBytes 80 ++
  [48, 49, 46, 48, 49, 46, 50, 48] ++
  [48, 48, 46, 48, 48, 46, 48, 48] ++
  padF [53, 49, 50] 8 ++ spBytes 44 ++ padF [49] 8 ++ padF [49] 8 ++
  padF [49] 4 ++
  padF [70, 108, 111, 119] 16 ++ spBytes 80 ++ spBytes 8 ++
  padF [48] 8 ++ padF [49, 48] 8 ++ padF [48] 8 ++ padF [49, 48] 8 ++
  spBytes 80 ++ padF [50] 8 ++ spBytes 32 ++
  [5, 0, 255, 255]

/-- `bufWF` with `digitalMax` changed to `0`, so `digitalMax = digitalMin`. -/
def bufDegen : List ℕ :=
  padF [48] 8 ++ spBytes 80 ++ spBytes 80 ++
  [48, 49, 46, 48, 49, 46, 50, 48] ++
  [48, 48, 46, 48, 48, 46, 48, 48] ++
  padF [53, 49, 50] 8 ++ spBytes 44 ++ padF [49] 8 ++ padF [49] 8 ++
  padF [49] 4 ++
  padF [70, 108, 111, 119] 16 ++ spBytes 80 ++ spBytes 8 ++
  padF [48] 8 ++ padF [49, 48] 8 ++ padF [48] 8 ++ padF [48] 8 ++
  spBytes 80 ++ padF [50] 8 ++ spBytes 32 ++
  [5, 0, 255, 255]

/-- `bufWF` with the `numDataRecords` field replaced by the unparseable
text `XX` (and no data bytes). -/
def bufBadNdr : List ℕ :=
  padF [48] 8 ++ spBytes 80 ++ spBytes 80 ++
  [48, 49, 46, 48, 49, 46, 50, 48] ++
  [48, 48, 46, 48, 48, 46, 48, 48] ++
  padF [53, 49, 50] 8 ++ spBytes 44 ++ padF [88, 88] 8 ++ padF [49] 8 ++
  padF [49] 4 ++
  padF [70, 108, 111, 119] 16 ++ spBytes 80 ++ spBytes 8 ++
  padF [48] 8 ++ padF [49, 48] 8 ++ padF [48] 8 ++ padF [49, 48] 8 ++
  spBytes 80 ++ padF [50] 8 ++ spBytes 32

/-- The decoded result of the well-formed buffer. -/
def resWF : EDFResult := (EDFParser.parse bufWF).getD default

/-- Its single signal. -/
def sigWF : EDFSignal := resWF.signals.getD 0 default

/-- An analyzer whose compute step always faults. -/
def failingAnalyzer : Analyzer Unit ℚ :=
  { id := "always_faults", process := fun _ => .error "boom" }

/-- An analyzer whose compute step always succeeds. -/
def okAnalyzer : Analyzer Unit ℚ :=
  { id := "always_ok", process := fun _ => .ok 42 }

/-- A flow with one breath whose normalized top region is perfectly flat:
inspiratory span `[1/5, 1, …, 1]` (10 samples, peak 1). -/
def flowFlat : List ℚ := [-1, 1/5, 1, 1, 1, 1, 1, 1, 1, 1, 1, -1]

/-- The breath the segmentation finds in `flowFlat`. -/
def breathFlat : Breath :=
  { start := 1, «end» := 11, inspStart := 1, inspEnd := 11, startTime := 1,
    endTime := some 11 }

/-- A flow with one breath whose normalized top span is a single index:
inspiratory span `[0.011 × 9, 0.11]` (10 samples, peak `0.11 ≥ 0.1`),
normalized `[0.1 × 9, 1]`, so only index 9 exceeds the default threshold
`0.5`. -/
def flowSingle : List ℚ :=
  [-1, 11/1000, 11/1000, 11/1000, 11/1000, 11/1000, 11/1000, 11/1000,
   11/1000, 11/1000, 11/100, -1]

/-- The breath the segmentation finds in `flowSingle`. -/
def breathSingle : Breath :=
  { start := 1, «end» := 11, inspStart := 1, inspEnd := 11, startTime := 1,
    endTime := some 11 }

/-- 61 zero samples: at 1 Hz the minute-ventilation series is the single
value `0`. -/
def flowZeros : List ℚ := List.replicate 61 0

/-- 66 zero samples: minute-ventilation series `[0, 0]`, padded FFT length 2. -/
def flowZeros66 : List ℚ := List.replicate 66 0

/-- 76 zero samples: minute-ventilation series `[0, 0, 0, 0]`. -/
def flowZeros76 : List ℚ := List.replicate 76 0

/-- A trigonometric oracle with `cos ≡ 1`, `sin ≡ 0` — exact at angle `0`,
the only angle a length-2 FFT evaluates. -/
def oracleStub : TrigOracle := ⟨fun _ => 1, fun _ => 0⟩

/-- Breath metrics with a 6-breath steady baseline (rate 12/min) followed by
two accelerated breaths (rate 20/min) 3 seconds apart: both qualify as
arousals, the second inside the 15-second debounce window. -/
def msDebounce : List BreathMetric :=
  [⟨0, 12, 1, 1⟩, ⟨5, 12, 1, 2⟩, ⟨10, 12, 1, 3⟩, ⟨15, 12, 1, 4⟩,
   ⟨20, 12, 1, 5⟩, ⟨25, 12, 1, 6⟩, ⟨28, 20, 1, 7⟩, ⟨31, 20, 1, 8⟩]

/-- An alternating flow `[-1, 1] × 12`: 12 breaths over 24 seconds. -/
def flowAlt : List ℚ :=
  [-1, 1, -1, 1, -1, 1, -1, 1, -1, 1, -1, 1,
   -1, 1, -1, 1, -1, 1, -1, 1, -1, 1, -1, 1]

/-! ## Lemmas: breath segmentation -/

theorem isRising_not_isFalling {flow : List ℚ} {i : ℕ} (h : isRising flow i = true) :
    isFalling flow i = false := by
  simp only [isRising, decide_eq_true_eq] at h
  simp only [isFalling, decide_eq_false_iff_not, not_and]
  intro hle
  exact absurd h.1 (not_lt.mpr hle)

theorem isRising_lt_length {flow : List ℚ} {i : ℕ} (h : isRising flow i = true) :
    i < flow.length := by
  simp only [isRising, decide_eq_true_eq] at h
  by_contra hge
  rw [List.getD_eq_default _ _ (not_lt.mp hge)] at h
  exact absurd h.1 (lt_irrefl 0)

theorem mem_risingUpTo {flow : List ℚ} {k i : ℕ} (h : i ∈ risingUpTo flow k) :
    1 ≤ i ∧ i ≤ k ∧ isRising flow i = true := by
  simp only [risingUpTo, List.mem_filter, List.mem_range'_1] at h
  exact ⟨h.1.1, by omega, h.2⟩

theorem risingUpTo_pairwise (flow : List ℚ) (k : ℕ) :
    (risingUpTo flow k).Pairwise (· < ·) := by
  exact (List.pairwise_lt_range' 1 k).sublist (List.filter_sublist _)

theorem crossings_pairwise (flow : List ℚ) (k : ℕ) :
    (crossings flow k).Pairwise (· < ·) := by
  exact (List.pairwise_lt_range' 1 k).sublist (List.filter_sublist _)

theorem risingUpTo_succ (flow : List ℚ) (k : ℕ) :
    risingUpTo flow (k + 1) =
      risingUpTo flow k ++ if isRising flow (k + 1) then [k + 1] else [] := by
  unfold risingUpTo
  rw [List.range'_1_concat, List.filter_append, show 1 + k = k + 1 by omega]
  congr 1
  cases h : isRising flow (k + 1) <;> simp [h]

theorem crossings_succ (flow : List ℚ) (k : ℕ) :
    crossings flow (k + 1) =
      crossings flow k ++
        if isRising flow (k + 1) || isFalling flow (k + 1) then [k + 1] else [] := by
  unfold crossings
  rw [List.range'_1_concat, List.filter_append, show 1 + k = k + 1 by omega]
  congr 1
  cases h : (isRising flow (k + 1) || isFalling flow (k + 1)) <;> simp [h]

theorem openAt_succ_cross (flow : List ℚ) (k : ℕ)
    (h : (isRising flow (k + 1) || isFalling flow (k + 1)) = true) :
    openAt flow (k + 1) = isRising flow (k + 1) := by
  unfold openAt
  rw [crossings_succ, if_pos h, List.getLast?_concat]
  rfl

theorem openAt_succ_nocross (flow : List ℚ) (k : ℕ)
    (h : (isRising flow (k + 1) || isFalling flow (k + 1)) = false) :
    openAt flow (k + 1) = openAt flow k := by
  unfold openAt
  rw [crossings_succ, if_neg (by simp [h]), List.append_nil]

theorem nextCloseWithin_succ (flow : List ℚ) {k i : ℕ} (h : i ≤ k) :
    nextCloseWithin flow (k + 1) i =
      (nextCloseWithin flow k i).or
        (if isFalling flow (k + 1) then some (k + 1) else none) := by
  unfold nextCloseWithin
  rw [show k + 1 - i = (k - i) + 1 by omega, List.range'_1_concat,
    show i + 1 + (k - i) = k + 1 by omega, List.find?_append]
  congr 1
  cases h' : isFalling flow (k + 1) <;> simp [List.find?, h']

theorem mkBreathUpTo_succ_notFalling (flow : List ℚ) (rate : ℚ) {k i : ℕ}
    (h : i ≤ k) (hf : isFalling flow (k + 1) = false) :
    mkBreathUpTo flow rate (k + 1) i = mkBreathUpTo flow rate k i := by
  unfold mkBreathUpTo
  rw [nextCloseWithin_succ flow h, hf, if_neg (by simp), Option.or_none]

theorem mkBreathUpTo_succ_closed (flow : List ℚ) (rate : ℚ) {k i : ℕ}
    (h : i ≤ k) (hc : (nextCloseWithin flow k i).isSome = true) :
    mkBreathUpTo flow rate (k + 1) i = mkBreathUpTo flow rate k i := by
  obtain ⟨j, hj⟩ := Option.isSome_iff_exists.mp hc
  unfold mkBreathUpTo
  rw [nextCloseWithin_succ flow h, hj]
  rfl

/-- Between two rising crossings there is a falling crossing: the flow is
positive at the first and non-positive just before the second, so the first
return to non-positive values in between is a falling crossing. -/
theorem falling_between (flow : List ℚ) {a b : ℕ} (ha : isRising flow a = true)
    (hb : isRising flow b = true) (hab : a < b) :
    ∃ j, a < j ∧ j < b ∧ isFalling flow j = true := by
  have ha' := ha
  simp only [isRising, decide_eq_true_eq] at ha' hb
  have hne : b - 1 ≠ a := by
    intro h
    rw [h] at hb
    exact absurd ha'.1 (not_lt.mpr hb.2)
  have hex : ∃ j, a < j ∧ flow.getD j 0 ≤ 0 := ⟨b - 1, by omega, hb.2⟩
  classical
  let j₀ := Nat.find hex
  have hspec : a < j₀ ∧ flow.getD j₀ 0 ≤ 0 := Nat.find_spec hex
  have hle : j₀ ≤ b - 1 := Nat.find_min' hex ⟨by omega, hb.2⟩
  refine ⟨j₀, hspec.1, by omega, ?_⟩
  simp only [isFalling, decide_eq_true_eq]
  refine ⟨hspec.2, ?_⟩
  by_cases hcase : j₀ - 1 = a
  · rw [hcase]; exact ha'.1
  · have hmin := Nat.find_min hex (show j₀ - 1 < j₀ by omega)
    simp only [not_and, not_le] at hmin
    exact hmin (by omega)

/-- When the most recent crossing is a falling one, every breath so far is
closed. -/
theorem closed_of_not_open {flow : List ℚ} {k i : ℕ} (ho : openAt flow k = false)
    (hi : i ∈ risingUpTo flow k) :
    (nextCloseWithin flow k i).isSome = true := by
  obtain ⟨h1, hik, hr⟩ := mem_risingUpTo hi
  have hic : i ∈ crossings flow k := by
    simp only [risingUpTo, List.mem_filter] at hi
    simp only [crossings, List.mem_filter, hi.1, true_and, hr, Bool.true_or]
  have hne : crossings flow k ≠ [] := by
    intro h; rw [h] at hic; exact absurd hic (List.not_mem_nil i)
  obtain ⟨c, hc⟩ := Option.isSome_iff_exists.mp (List.getLast?_isSome.mpr hne)
  have hcr : isRising flow c = false := by
    unfold openAt at ho
    rw [hc] at ho
    exact ho
  have hcm : c ∈ crossings flow k := List.mem_of_getLast?_eq_some hc
  have hcf : isFalling flow c = true := by
    simp only [crossings, List.mem_filter, Bool.or_eq_true] at hcm
    rcases hcm.2 with h | h
    · exact absurd h (by rw [hcr]; simp)
    · exact h
  have hck : 1 ≤ c ∧ c ≤ k := by
    simp only [crossings, List.mem_filter, List.mem_range'_1] at hcm
    exact ⟨hcm.1.1, by omega⟩
  have hic' : i < c := by
    have hmax : ∀ x ∈ crossings flow k, x ≠ c → x < c := by
      have hdrop := List.dropLast_concat_getLast hne
      have hc' : (crossings flow k).getLast hne = c := by
        have h := (List.getLast?_eq_getLast _ hne).symm.trans hc
        exact Option.some_injective _ h
      intro x hx hxne
      have hpw := crossings_pairwise flow k
      rw [← hdrop, hc'] at hpw hx
      rcases List.mem_append.mp hx with h | h
      · exact (List.pairwise_append.mp hpw).2.2 x h c (List.mem_singleton_self c)
      · exact absurd (List.mem_singleton.mp h) hxne
    refine hmax i hic ?_
    intro h
    rw [h] at hr
    rw [hr] at hcr
    exact Bool.noConfusion hcr
  apply List.find?_isSome.mpr
  exact ⟨c, by simp only [List.mem_range'_1]; omega, hcf⟩

/-- When the most recent crossing is a rising one, the rising list is
nonempty, its last element is that crossing, and that breath is open. -/
theorem open_structure {flow : List ℚ} {k : ℕ} (ho : openAt flow k = true) :
    ∃ c cs, risingUpTo flow k = cs ++ [c] ∧ isRising flow c = true ∧ c ≤ k ∧
      nextCloseWithin flow k c = none ∧ (∀ x ∈ cs, x < c) := by
  have hne : crossings flow k ≠ [] := by
    intro h
    unfold openAt at ho
    rw [h] at ho
    simp at ho
  obtain ⟨c, hc⟩ := Option.isSome_iff_exists.mp (List.getLast?_isSome.mpr hne)
  have hcr : isRising flow c = true := by
    unfold openAt at ho
    rw [hc] at ho
    exact ho
  have hdrop : (crossings flow k).dropLast ++ [c] = crossings flow k := by
    have h1 := List.dropLast_concat_getLast hne
    rw [show (crossings flow k).getLast hne = c from by
      have := (List.getLast?_eq_getLast _ hne).symm.trans hc
      simpa using this] at h1
    exact h1
  have hck : c ≤ k := by
    have hcm : c ∈ crossings flow k := List.mem_of_getLast?_eq_some hc
    simp only [crossings, List.mem_filter, List.mem_range'_1] at hcm
    omega
  have hmax : ∀ x ∈ (crossings flow k).dropLast, x < c := by
    have hpw := crossings_pairwise flow k
    rw [← hdrop] at hpw
    intro x hx
    exact (List.pairwise_append.mp hpw).2.2 x hx c (List.mem_singleton_self c)
  have hrising_eq : risingUpTo flow k = (crossings flow k).filter (isRising flow) := by
    unfold risingUpTo crossings
    rw [List.filter_filter]
    congr 1
    funext i
    cases h : isRising flow i <;> simp [h]
  refine ⟨c, ((crossings flow k).dropLast).filter (isRising flow), ?_, hcr, hck, ?_, ?_⟩
  · rw [hrising_eq]
    conv_lhs => rw [← hdrop]
    rw [List.filter_append, List.filter_singleton, hcr]
    rfl
  · apply List.find?_eq_none.mpr
    intro j hj hf
    have hjc : j ∈ crossings flow k := by
      simp only [List.mem_range'_1] at hj
      simp only [crossings, List.mem_filter, List.mem_range'_1, hf, Bool.or_true,
        and_true]
      omega
    have hjgt : c < j := by
      simp only [List.mem_range'_1] at hj
      omega
    rw [← hdrop] at hjc
    rcases List.mem_append.mp hjc with h | h
    · exact absurd (hmax j h) (by omega)
    · have := List.mem_singleton.mp h
      omega
  · intro x hx
    exact hmax x (List.mem_filter.mp hx).1

/-- `closeLast` on a non-empty list updates exactly the last element. -/
theorem closeLast_concat (l : List Breath) (b : Breath) (i : ℕ) (rate : ℚ) :
    closeLast (l ++ [b]) i rate =
      l ++ [{ b with inspEnd := i, «end» := i, endTime := some ((i : ℚ) / rate) }] := by
  unfold closeLast
  rw [List.reverse_append]
  simp

theorem segStep_rising {flow : List ℚ} {rate : ℚ} {i : ℕ}
    (hR : isRising flow i = true) (bs : List Breath) (insp : Bool) :
    segStep flow rate ⟨bs, insp⟩ i =
      ⟨bs ++ [{ start := i, «end» := i, inspStart := i, inspEnd := i,
                startTime := (i : ℚ) / rate, endTime := none }], true⟩ := by
  simp [segStep, hR]

theorem segStep_falling {flow : List ℚ} {rate : ℚ} {i : ℕ}
    (hR : isRising flow i = false) (hF : isFalling flow i = true)
    (bs : List Breath) (insp : Bool) :
    segStep flow rate ⟨bs, insp⟩ i =
      ⟨if insp = true ∧ bs ≠ [] then closeLast bs i rate else bs, false⟩ := by
  simp [segStep, hR, hF]

theorem segStep_nocross {flow : List ℚ} {rate : ℚ} {i : ℕ}
    (hR : isRising flow i = false) (hF : isFalling flow i = false)
    (bs : List Breath) (insp : Bool) :
    segStep flow rate ⟨bs, insp⟩ i = ⟨bs, insp⟩ := by
  simp [segStep, hR, hF]

/-- The segmentation loop invariant: after processing indices `1..k`, the
breath list is the closed-form list and `inInspiration` is `openAt`. -/
theorem seg_fold_eq (flow : List ℚ) (rate : ℚ) (k : ℕ) :
    (List.range' 1 k).foldl (segStep flow rate) ⟨[], false⟩ =
      ⟨(risingUpTo flow k).map (mkBreathUpTo flow rate k), openAt flow k⟩ := by
  induction k with
  | zero => simp [risingUpTo, openAt, crossings]
  | succ k ih =>
    rw [List.range'_1_concat, List.foldl_append, ih, show 1 + k = k + 1 by omega]
    simp only [List.foldl_cons, List.foldl_nil]
    by_cases hR : isRising flow (k + 1) = true
    · -- a new breath opens at k+1
      have hF := isRising_not_isFalling hR
      rw [segStep_rising hR]
      have hopen : openAt flow (k + 1) = true := by
        rw [openAt_succ_cross flow k (by simp [hR])]
        exact hR
      rw [hopen, risingUpTo_succ, if_pos hR, List.map_append]
      congr 2
      · apply List.map_congr_left
        intro i hi
        exact (mkBreathUpTo_succ_notFalling flow rate (mem_risingUpTo hi).2.1 hF).symm
      · simp only [List.map_cons, List.map_nil]
        unfold mkBreathUpTo nextCloseWithin
        rw [show k + 1 - (k + 1) = 0 by omega]
        rfl
    · rw [Bool.not_eq_true] at hR
      by_cases hFall : isFalling flow (k + 1) = true
      · -- a falling crossing at k+1
        rw [segStep_falling hR hFall]
        have hopen : openAt flow (k + 1) = false := by
          rw [openAt_succ_cross flow k (by simp [hFall])]
          exact hR
        have hrise : risingUpTo flow (k + 1) = risingUpTo flow k := by
          rw [risingUpTo_succ, if_neg (by simp [hR]), List.append_nil]
        rw [hopen, hrise]
        by_cases hO : openAt flow k = true
        · -- close the open (last) breath
          obtain ⟨c, cs, hsplit, hcr, hck, hnone, hlt⟩ := open_structure hO
          have h1 : ∀ i ∈ cs,
              mkBreathUpTo flow rate (k + 1) i = mkBreathUpTo flow rate k i := by
            intro i hi
            have hmem : i ∈ risingUpTo flow k := by
              rw [hsplit]
              exact List.mem_append_left _ hi
            have hclosed : (nextCloseWithin flow k i).isSome = true := by
              obtain ⟨j, hj1, hj2, hj3⟩ :=
                falling_between flow (mem_risingUpTo hmem).2.2 hcr (hlt i hi)
              apply List.find?_isSome.mpr
              refine ⟨j, ?_, hj3⟩
              simp only [List.mem_range'_1]
              omega
            exact mkBreathUpTo_succ_closed flow rate (mem_risingUpTo hmem).2.1 hclosed
          have hopenb : mkBreathUpTo flow rate k c =
              { start := c, «end» := c, inspStart := c, inspEnd := c,
                startTime := (c : ℚ) / rate, endTime := none } := by
            unfold mkBreathUpTo
            rw [hnone]
          have h2 : mkBreathUpTo flow rate (k + 1) c =
              { start := c, «end» := k + 1, inspStart := c, inspEnd := k + 1,
                startTime := (c : ℚ) / rate,
                endTime := some (((k + 1 : ℕ) : ℚ) / rate) } := by
            have hnew : nextCloseWithin flow (k + 1) c = some (k + 1) := by
              rw [nextCloseWithin_succ flow hck, hnone, if_pos hFall]
              rfl
            unfold mkBreathUpTo
            rw [hnew]
          rw [hO, hsplit, List.map_append, List.map_append]
          simp only [List.map_cons, List.map_nil]
          rw [if_pos (by simp), closeLast_concat, hopenb, h2]
          rw [List.map_congr_left h1]
        · -- nothing was open: the falling crossing closes nothing
          rw [Bool.not_eq_true] at hO
          rw [hO, if_neg (by simp)]
          congr 1
          apply List.map_congr_left
          intro i hi
          exact (mkBreathUpTo_succ_closed flow rate (mem_risingUpTo hi).2.1
            (closed_of_not_open hO hi)).symm
      · -- no crossing at k+1: nothing changes
        rw [Bool.not_eq_true] at hFall
        rw [segStep_nocross hR hFall]
        have hrise : risingUpTo flow (k + 1) = risingUpTo flow k := by
          rw [risingUpTo_succ, if_neg (by simp [hR]), List.append_nil]
        rw [openAt_succ_nocross flow k (by simp [hR, hFall]), hrise]
        congr 1
        apply List.map_congr_left
        intro i hi
        exact (mkBreathUpTo_succ_notFalling flow rate (mem_risingUpTo hi).2.1
          hFall).symm

/-- The segmentation output in closed form: one breath per rising
zero-crossing, closed at the next falling zero-crossing when one exists. -/
theorem segment_eq (flow : List ℚ) (rate : ℚ) :
    segment flow rate = (risingIndices flow).map (mkBreath flow rate) := by
  unfold segment
  rw [seg_fold_eq]
  show (risingUpTo flow (flow.length - 1)).map _ = _
  have h1 : risingIndices flow = risingUpTo flow (flow.length - 1) := rfl
  rw [h1]
  apply List.map_congr_left
  intro i _
  unfold mkBreath mkBreathUpTo nextClose nextCloseWithin
  rw [show flow.length - (i + 1) = flow.length - 1 - i by omega]

theorem pairwise_lt_le_getLast {l : List ℕ} (hpw : l.Pairwise (· < ·))
    (hne : l ≠ []) : ∀ x ∈ l, x ≤ l.getLast hne := by
  intro x hx
  have hdrop := List.dropLast_concat_getLast hne
  rw [← hdrop] at hpw hx
  rcases List.mem_append.mp hx with h | h
  · exact le_of_lt ((List.pairwise_append.mp hpw).2.2 x h _ (List.mem_singleton_self _))
  · rw [List.mem_singleton.mp h]

theorem getLast?_eq_of_max {l : List ℕ} (hpw : l.Pairwise (· < ·)) {i : ℕ}
    (hmem : i ∈ l) (hmax : ∀ x ∈ l, x ≤ i) : l.getLast? = some i := by
  have hne : l ≠ [] := List.ne_nil_of_mem hmem
  rw [List.getLast?_eq_getLast _ hne]
  congr 1
  have h1 : l.getLast hne ≤ i := hmax _ (List.getLast_mem hne)
  have h2 : i ≤ l.getLast hne := pairwise_lt_le_getLast hpw hne i hmem
  omega

theorem isRising_ne_zero {flow : List ℚ} {i : ℕ} (h : isRising flow i = true) :
    1 ≤ i := by
  rcases Nat.eq_zero_or_pos i with h0 | h1
  · subst h0
    simp only [isRising, decide_eq_true_eq] at h
    exact absurd h.1 (not_lt.mpr (by simpa using h.2))
  · exact h1

theorem mem_risingIndices {flow : List ℚ} {i : ℕ} (h : isRising flow i = true) :
    i ∈ risingIndices flow := by
  have h1 := isRising_ne_zero h
  have h2 := isRising_lt_length h
  unfold risingIndices
  rw [List.mem_filter, List.mem_range'_1]
  exact ⟨⟨h1, by omega⟩, h⟩

/-! ## Claim theorems C3, C9 -/

unseal Rat.mul Rat.inv Rat.add Rat.sub

/-- C3: the breath segmentation opens a breath exactly at each index `i ≥ 1`
with `flow[i] > 0` and `flow[i-1] ≤ 0` (the list `risingIndices`), closes the
currently open breath at the next index `j` with `flow[j] ≤ 0` and
`flow[j-1] > 0` (`nextClose`, via `mkBreath`), and sets
`startTime = i / samplingRate` (the `startTime` field of `mkBreath`); the flow
signal `[-1,1,-1,1,-1]` at 1 Hz yields exactly two breaths, with start
indices 1 and 3. -/
theorem C3_breath_segmentation :
    (∀ (flow : List ℚ) (rate : ℚ),
      segment flow rate = (risingIndices flow).map (mkBreath flow rate)) ∧
    segment [-1, 1, -1, 1, -1] 1 =
      [{ start := 1, «end» := 2, inspStart := 1, inspEnd := 2, startTime := 1,
         endTime := some 2 },
       { start := 3, «end» := 4, inspStart := 3, inspEnd := 4, startTime := 3,
         endTime := some 4 }] ∧
    (segment [-1, 1, -1, 1, -1] 1).map (fun b => b.start) = [1, 3] := by
  refine ⟨segment_eq, ?_, ?_⟩ <;> decide

/-- C9: if the flow ends while a breath is open (a rising crossing `i` with no
subsequent falling crossing inside the waveform), the final breath of the
segmentation keeps `endTime` unassigned (`none`) with `end`/`inspEnd` still at
the placeholder start index; and every breath that was closed
(`endTime` present) satisfies `startIndex < inspirationEndIndex ≤ endIndex`. -/
theorem C9_trailing_breath_invariant (flow : List ℚ) (rate : ℚ) (i : ℕ)
    (hr : isRising flow i = true)
    (hnf : ∀ j, j < flow.length → i < j → isFalling flow j = false) :
    (segment flow rate).getLast? = some
      { start := i, «end» := i, inspStart := i, inspEnd := i,
        startTime := (i : ℚ) / rate, endTime := none } ∧
    ∀ b ∈ segment flow rate, b.endTime.isSome = true →
      b.start < b.inspEnd ∧ b.inspEnd ≤ b.«end» := by
  constructor
  · rw [segment_eq, List.getLast?_map]
    have hmax : ∀ x ∈ risingIndices flow, x ≤ i := by
      intro x hx
      by_contra hgt
      push_neg at hgt
      have hxr : isRising flow x = true := (List.mem_filter.mp hx).2
      obtain ⟨j, hj1, hj2, hj3⟩ := falling_between flow hr hxr hgt
      have hxlen := isRising_lt_length hxr
      exact absurd hj3 (by rw [hnf j (by omega) hj1]; simp)
    have hlast : (risingIndices flow).getLast? = some i :=
      getLast?_eq_of_max
        (by unfold risingIndices
            exact (List.pairwise_lt_range' 1 _).sublist (List.filter_sublist _))
        (mem_risingIndices hr) hmax
    rw [hlast]
    have hopen : nextClose flow i = none := by
      apply List.find?_eq_none.mpr
      intro j hj
      rw [List.mem_range'_1] at hj
      rw [hnf j (by omega) (by omega)]
      simp
    simp only [Option.map_some']
    unfold mkBreath
    rw [hopen]
  · intro b hb hsome
    rw [segment_eq] at hb
    obtain ⟨x, hx, hbx⟩ := List.mem_map.mp hb
    rcases hnc : nextClose flow x with _ | j
    · rw [← hbx] at hsome
      unfold mkBreath at hsome
      rw [hnc] at hsome
      simp at hsome
    · have hxj : x < j := by
        have hmem := List.mem_of_find?_eq_some hnc
        rw [List.mem_range'_1] at hmem
        omega
      rw [← hbx]
      unfold mkBreath
      rw [hnc]
      exact ⟨hxj, le_refl _⟩

set_option maxRecDepth 100000

/-- Witness for C9 at the flow `[-1, 1, 1]`: the single breath opens at 1
and is never closed. -/
theorem C9_trailing_breath_invariant_witness :
    (segment [-1, 1, 1] 1).getLast? = some
      { start := 1, «end» := 1, inspStart := 1, inspEnd := 1,
        startTime := ((1 : ℕ) : ℚ) / 1, endTime := none } :=
  (C9_trailing_breath_invariant [-1, 1, 1] 1 1 (by decide) (by decide)).1

/-- C10: each of the five numeric Wobble parameters is read through the JS
`||` idiom, so an explicitly supplied `0` is indistinguishable from a
missing key: the analyzer computes with the documented default. -/
theorem C10_zero_setting_falls_back_to_default (o : TrigOracle)
    (flow : List ℚ) (rate : ℚ) (s : WobbleSettings) :
    WobbleAnalyzer.process o flow rate { s with flTopPercentage := some 0 } =
      WobbleAnalyzer.process o flow rate { s with flTopPercentage := none } ∧
    WobbleAnalyzer.process o flow rate { s with flFlatnessTarget := some 0 } =
      WobbleAnalyzer.process o flow rate { s with flFlatnessTarget := none } ∧
    WobbleAnalyzer.process o flow rate { s with arousalBaselineWindowSec := some 0 } =
      WobbleAnalyzer.process o flow rate { s with arousalBaselineWindowSec := none } ∧
    WobbleAnalyzer.process o flow rate { s with arousalRateIncreaseMin := some 0 } =
      WobbleAnalyzer.process o flow rate { s with arousalRateIncreaseMin := none } ∧
    WobbleAnalyzer.process o flow rate { s with arousalVolIncreaseMin := some 0 } =
      WobbleAnalyzer.process o flow rate { s with arousalVolIncreaseMin := none } :=
  ⟨rfl, rfl, rfl, rfl, rfl⟩

theorem objSet_append {γ : Type} (m : List (String × γ)) (k : String) (v : γ)
    (h : ∀ p ∈ m, p.1 ≠ k) : objSet m k v = m ++ [(k, v)] := by
  unfold objSet
  rw [if_neg]
  simp only [List.any_eq_true, not_exists, not_and]
  intro p hp
  simpa using h p hp

theorem processSession_fold {α β : Type} (input : α) :
    ∀ (tools : List (Analyzer α β)) (acc : List (String × EngineResult β)),
      (tools.map (fun t => t.id)).Nodup →
      (∀ t ∈ tools, ∀ p ∈ acc, p.1 ≠ t.id) →
      tools.foldl (fun results tool =>
        objSet results tool.id
          (match tool.process input with
           | .ok v => .ok v
           | .error e => .err e)) acc =
        acc ++ tools.map (fun t => (t.id, runOutcome input t))
  | [], acc, _, _ => by simp
  | t :: ts, acc, hnd, hdisj => by
    have hnd' : t.id ∉ ts.map (fun a => a.id) ∧ (ts.map (fun a => a.id)).Nodup := by
      rw [List.map_cons, List.nodup_cons] at hnd
      exact hnd
    simp only [List.foldl_cons, List.map_cons]
    rw [objSet_append _ _ _ (hdisj t (List.mem_cons_self t ts))]
    have hout : (match t.process input with
        | .ok v => EngineResult.ok v
        | .error e => EngineResult.err e) = runOutcome input t := rfl
    rw [hout]
    rw [processSession_fold input ts (acc ++ [(t.id, runOutcome input t)])
      hnd'.2 ?_]
    · simp
    · intro t' ht' p hp
      rcases List.mem_append.mp hp with h | h
      · exact hdisj t' (List.mem_cons_of_mem t ht') p h
      · rw [List.mem_singleton.mp h]
        intro hEq
        exact hnd'.1 (by
          rw [show t.id = t'.id from hEq]
          exact List.mem_map.mpr ⟨t', ht', rfl⟩)

/-- C4: with pairwise distinct ids, `processSession` produces exactly one
entry per registered analyzer, in registration order; an analyzer whose
compute step faults contributes its error marker while every other analyzer
contributes its normal result. -/
theorem C4_processSession_isolation {α β : Type}
    (analyzers : List (Analyzer α β)) (input : α)
    (hids : (analyzers.map (fun t => t.id)).Nodup) :
    AnalysisEngine.processSession analyzers input =
      analyzers.map (fun t => (t.id, runOutcome input t)) := by
  unfold AnalysisEngine.processSession
  rw [processSession_fold input analyzers [] hids (by simp)]
  simp

/-- Witness for C4: a faulting and a succeeding analyzer; the fault is
isolated as an error entry and the other result is intact. -/
theorem C4_processSession_isolation_witness :
    AnalysisEngine.processSession [failingAnalyzer, okAnalyzer] () =
      [("always_faults", EngineResult.err "boom"),
       ("always_ok", EngineResult.ok 42)] := by
  rw [C4_processSession_isolation [failingAnalyzer, okAnalyzer] () (by decide)]
  rfl

/-- C7 counterexample: on 66 zero flow samples at 1 Hz the
minute-ventilation series is `[0, 0]`, the FFT (exercising only the angle-0
twiddle, where the stub oracle is exact) is identically zero, total spectral
power is `0` — and the periodicity index is `NaN` (`0/0`, unchecked by
`Math.min`), not the `0` the claim states. -/
theorem C7_zero_power_counterexample :
    minuteVentOf flowZeros66 1 = [0, 0] ∧
    jsfft oracleStub [((0 : ℚ), (0 : ℚ)), (0, 0)] = [(0, 0), (0, 0)] ∧
    ([(0 : ℚ), 0].sum = 0 ∧ periodicityFromPower 2 [0] = JSVal.nan) ∧
    periodicityOf oracleStub flowZeros66 1 = JSVal.nan := by
  refine ⟨by decide, by decide, ⟨by decide, by decide⟩, by decide⟩

theorem sublist_of_pbBand (n : ℕ) (power : List ℚ) :
    (((power.enum).filter (fun ip =>
      decide ((1 / 100 : ℚ) ≤ (ip.1 : ℚ) / ((n : ℚ) * 5)) &&
        decide ((ip.1 : ℚ) / ((n : ℚ) * 5) ≤ 3 / 100))).map
          (fun ip => ip.2)).Sublist power := by
  have h1 := (List.filter_sublist (l := power.enum)
    (p := fun ip => decide ((1 / 100 : ℚ) ≤ (ip.1 : ℚ) / ((n : ℚ) * 5)) &&
      decide ((ip.1 : ℚ) / ((n : ℚ) * 5) ≤ 3 / 100))).map
        (fun ip : ℕ × ℚ => ip.2)
  rw [show power.enum.map (fun ip : ℕ × ℚ => ip.2) = power from
    List.enum_map_snd power] at h1
  exact h1

/-- C7 amended: over a non-negative magnitude spectrum, zero total power
yields `NaN` (the raw `0/0`, which `Math.min` propagates), and positive
total power yields the finite value `min(100, pbPower/totalPower × 200)`. -/
theorem C7_amended_periodicity (n : ℕ) (power : List ℚ)
    (hpos : ∀ p ∈ power, 0 ≤ p) :
    (power.sum = 0 → periodicityFromPower n power = JSVal.nan) ∧
    (power.sum ≠ 0 → periodicityFromPower n power =
      JSVal.fin (min 100 (pbBandPower n power / power.sum * 200))) := by
  constructor
  · intro h0
    have hall : ∀ x ∈ power, x = 0 := fun x hx =>
      List.all_zero_of_le_zero_le_of_sum_eq_zero hpos h0 hx
    have hpb : pbBandPower n power = 0 := by
      unfold pbBandPower
      apply List.sum_eq_zero
      intro x hx
      exact hall x ((sublist_of_pbBand n power).subset hx)
    unfold periodicityFromPower
    rw [hpb, h0]
    simp [jsDiv, jsMulPos, jsMin]
  · intro hne
    unfold periodicityFromPower
    simp [jsDiv, hne, jsMulPos, jsMin, mul_comm]

/-- Witness for the amended C7 at the concrete spectra `[0]` and `[1]`. -/
theorem C7_amended_periodicity_witness :
    periodicityFromPower 2 [0] = JSVal.nan ∧
    periodicityFromPower 2 [1] =
      JSVal.fin (min 100 (pbBandPower 2 [1] / ([(1 : ℚ)] : List ℚ).sum * 200)) :=
  ⟨(C7_amended_periodicity 2 [0] (by decide)).1 (by decide),
   (C7_amended_periodicity 2 [1] (by decide)).2 (by decide)⟩

theorem matchTemplate_iff (s : List ℚ) (r : ℚ) (m i j : ℕ) :
    matchTemplate s r m i j = true ↔
      ∀ k < m, |s.getD (i + k) 0 - s.getD (j + k) 0| ≤ r := by
  unfold matchTemplate
  rw [List.all_eq_true]
  constructor
  · intro h k hk
    have := h k (List.mem_range.mpr hk)
    exact of_decide_eq_true this
  · intro h k hk
    exact decide_eq_true (h k (List.mem_range.mp hk))

theorem inner_count_eq (s : List ℚ) (r : ℚ) (m : ℕ) {L i : ℕ} (hi : i < L) :
    ((List.range' (i + 1) (L - (i + 1))).filter
      (fun j => matchTemplate s r m i j)).length =
    ((List.range L).filter
      (fun j => decide (i < j) && matchTemplate s r m i j)).length := by
  have hsplit : List.range L =
      List.range' 0 (i + 1) ++ List.range' (i + 1) (L - (i + 1)) := by
    have h := List.range'_append_1 0 (i + 1) (L - (i + 1))
    rw [Nat.zero_add, show L - (i + 1) + (i + 1) = L by omega] at h
    rw [List.range_eq_range', ← h]
  rw [hsplit, List.filter_append, List.length_append]
  have h1 : (List.range' 0 (i + 1)).filter
      (fun j => decide (i < j) && matchTemplate s r m i j) = [] := by
    apply List.filter_eq_nil_iff.mpr
    intro j hj
    rw [List.mem_range'_1] at hj
    simp only [Bool.and_eq_true, decide_eq_true_eq, not_and]
    intro hij
    omega
  rw [h1]
  simp only [List.length_nil, Nat.zero_add]
  congr 1
  apply List.filter_congr
  intro j hj
  rw [List.mem_range'_1] at hj
  simp [show i < j by omega]

theorem sum_map_list_range (f : ℕ → ℕ) (n : ℕ) :
    ((List.range n).map f).sum = ∑ i ∈ Finset.range n, f i := by
  induction n with
  | zero => simp
  | succ n ih => rw [List.range_succ, List.map_append, List.sum_append,
      Finset.sum_range_succ, ih]; simp

theorem filter_range_card_eq_list {L : ℕ} (p : ℕ → Prop) [DecidablePred p] :
    ((Finset.range L).filter p).card =
      ((List.range L).filter (fun j => decide (p j))).length := rfl

theorem pairCount_general (s : List ℚ) (r : ℚ) (m L : ℕ) :
    ((List.range L).map (fun i =>
      ((List.range' (i + 1) (L - (i + 1))).filter
        (fun j => matchTemplate s r m i j)).length)).sum =
    ((Finset.range L ×ˢ Finset.range L).filter
      (fun p => p.1 < p.2 ∧
        ∀ k < m, |s.getD (p.1 + k) 0 - s.getD (p.2 + k) 0| ≤ r)).card := by
  set P : ℕ × ℕ → Prop := fun p => p.1 < p.2 ∧
    ∀ k < m, |s.getD (p.1 + k) 0 - s.getD (p.2 + k) 0| ≤ r with hP
  have hfib : ((Finset.range L ×ˢ Finset.range L).filter P).card =
      ∑ a ∈ Finset.range L,
        (((Finset.range L ×ˢ Finset.range L).filter P).filter
          (fun p => p.1 = a)).card := by
    apply Finset.card_eq_sum_card_fiberwise
    intro p hp
    exact (Finset.mem_product.mp (Finset.mem_filter.mp hp).1).1
  have hfiber : ∀ a ∈ Finset.range L,
      (((Finset.range L ×ˢ Finset.range L).filter P).filter
        (fun p => p.1 = a)).card =
      ((Finset.range L).filter (fun j => P (a, j))).card := by
    intro a haL
    apply Finset.card_nbij' (fun p => p.2) (fun j => (a, j))
    · intro p hp
      rw [Finset.mem_filter] at hp
      obtain ⟨hp1, hp2⟩ := hp
      rw [Finset.mem_filter] at hp1
      rw [Finset.mem_filter]
      refine ⟨(Finset.mem_product.mp hp1.1).2, ?_⟩
      obtain ⟨p1, p2⟩ := p
      simp only at hp2
      rw [← hp2]
      exact hp1.2
    · intro j hj
      rw [Finset.mem_filter] at hj
      rw [Finset.mem_filter]
      refine ⟨?_, rfl⟩
      rw [Finset.mem_filter, Finset.mem_product]
      exact ⟨⟨haL, hj.1⟩, hj.2⟩
    · intro p hp
      rw [Finset.mem_filter] at hp
      obtain ⟨p1, p2⟩ := p
      simp only at hp ⊢
      rw [hp.2]
    · intro j _
      rfl
  rw [hfib, Finset.sum_congr rfl hfiber,
    sum_map_list_range (fun i =>
      ((List.range' (i + 1) (L - (i + 1))).filter
        (fun j => matchTemplate s r m i j)).length) L]
  apply Finset.sum_congr rfl
  intro i hi
  rw [inner_count_eq s r m (Finset.mem_range.mp hi),
    filter_range_card_eq_list]
  congr 1
  apply List.filter_congr
  intro j _
  simp only [hP]
  rw [Bool.eq_iff_iff, Bool.and_eq_true, decide_eq_true_eq, decide_eq_true_eq,
    matchTemplate_iff]

theorem countMatches_eq_card (s : List ℚ) (r : ℚ) (m : ℕ) :
    countMatches s r m =
      ((Finset.range (s.length - m) ×ˢ Finset.range (s.length - m)).filter
        (fun p => p.1 < p.2 ∧
          ∀ k < m, |s.getD (p.1 + k) 0 - s.getD (p.2 + k) 0| ≤ r)).card := by
  have hcm : countMatches s r m = ((List.range (s.length - m)).map (fun i =>
      ((List.range' (i + 1) (s.length - m - (i + 1))).filter
        (fun j => matchTemplate s r m i j)).length)).sum := rfl
  rw [hcm, pairCount_general]

/-- C8 counterexample: on 76 zero flow samples at 1 Hz the
minute-ventilation series is `[0,0,0,0]` (variance 0, so the tolerance
`r = 0.2·stddev` is exactly 0).  The source's `countMatches` runs both loop
indices strictly below `N - m`, so `B = countMatches(2) = 1` and
`A = countMatches(3) = 0` (entropy branch `0`), whereas the claim's count
over all index pairs whose templates lie within the series gives `B = 3`,
`A = 1` — and hence a nonzero `-ln(A/B)` entropy. -/
theorem C8_countMatches_counterexample :
    minuteVentOf flowZeros76 1 = [0, 0, 0, 0] ∧
    countMatches [0, 0, 0, 0] 0 2 = 1 ∧
    countMatches [0, 0, 0, 0] 0 3 = 0 ∧
    specTemplatePairCount [0, 0, 0, 0] 0 2 = 3 ∧
    specTemplatePairCount [0, 0, 0, 0] 0 3 = 1 ∧
    wobbleSampleEntropy [0, 0, 0, 0] 0 = SampEnVal.zero ∧
    regularityOf flowZeros76 1 = RegularityOut.score SampEnVal.zero := by
  refine ⟨by decide, by decide, by decide, by decide, by decide, by decide,
    by decide⟩

/-- C8 amended: `countMatches` counts the index pairs `i < j` with **both**
indices strictly below `N - m` (the template starting at the last valid
position `N - m` is excluded), matching when every offset `k < m` stays
within the tolerance; the sample entropy is the symbolic `-ln(A/B)` when
both counts are nonzero, and `0` otherwise. -/
theorem C8_amended_regularity_counts (s : List ℚ) (r : ℚ) (m : ℕ) :
    countMatches s r m =
      ((Finset.range (s.length - m) ×ˢ Finset.range (s.length - m)).filter
        (fun p => p.1 < p.2 ∧
          ∀ k < m, |s.getD (p.1 + k) 0 - s.getD (p.2 + k) 0| ≤ r)).card ∧
    wobbleSampleEntropy s r =
      (if countMatches s r 3 = 0 ∨ countMatches s r 2 = 0 then SampEnVal.zero
       else SampEnVal.negLn ((countMatches s r 3 : ℚ) / (countMatches s r 2 : ℚ))) := by
  refine ⟨countMatches_eq_card s r m, ?_⟩
  unfold wobbleSampleEntropy
  by_cases hB : countMatches s r 2 = 0
  · simp [hB]
  · by_cases hA : countMatches s r 3 = 0
    · simp [hA, hB]
    · simp [hA, hB]

theorem findIdx?_first {α : Type} (p : α → Bool) (d : α) :
    ∀ (l : List α) (f : ℕ), f < l.length → p (l.getD f d) = true →
      (∀ k < f, p (l.getD k d) = false) → l.findIdx? p = some f := by
  intro l
  induction l with
  | nil =>
    intro f hf
    simp at hf
  | cons a t ih =>
    intro f hf hp hbefore
    rw [List.findIdx?_cons]
    cases f with
    | zero =>
      have hpa : p a = true := hp
      rw [hpa]
      simp
    | succ f' =>
      have hpa : p a = false := hbefore 0 (Nat.succ_pos f')
      rw [hpa]
      simp only [Bool.false_eq_true, if_false]
      have hstep : List.findIdx? p t (0 + 1) = (List.findIdx? p t 0).map (· + 1) :=
        List.findIdx?_succ
      rw [show (1 : ℕ) = 0 + 1 from rfl, hstep,
        ih f' (by simpa using hf) hp (fun k hk => hbefore (k + 1) (by omega))]
      rfl

theorem getD_reverse_of_lt {α : Type} (l : List α) (d : α) {i : ℕ}
    (h : i < l.length) :
    l.reverse.getD i d = l.getD (l.length - 1 - i) d := by
  have h1 : i < l.reverse.length := by simpa using h
  have h2 : l.length - 1 - i < l.length := by omega
  rw [List.getD_eq_getElem?_getD, List.getD_eq_getElem?_getD,
    List.getElem?_eq_getElem h1, List.getElem?_eq_getElem h2]
  simp [List.getElem_reverse]

theorem findIdx?_reverse_last {α : Type} (p : α → Bool) (d : α) (l : List α)
    (lst : ℕ) (hlt : lst < l.length) (hp : p (l.getD lst d) = true)
    (hafter : ∀ k, lst < k → k < l.length → p (l.getD k d) = false) :
    l.reverse.findIdx? p = some (l.length - 1 - lst) := by
  apply findIdx?_first p d
  · simp only [List.length_reverse]
    omega
  · rw [getD_reverse_of_lt l d (by omega)]
    rw [show l.length - 1 - (l.length - 1 - lst) = lst by omega]
    exact hp
  · intro k hk
    rw [getD_reverse_of_lt l d (by omega)]
    exact hafter (l.length - 1 - k) (by omega) (by omega)

/-- C5 counterexample: the source's top-span guard
`topHalfStart >= 0 && topHalfEnd > topHalfStart` (`wobble.js` line 69)
accepts a *single-index* top span, because `topHalfEnd` is the last
exceeding index plus one.  In `flowSingle` only normalized index 9 exceeds
the default threshold: the code scores that breath (singleton variance 0,
flatness 100, flScore 100), while the claim's reading — a first exceeding
index and a *later* last one — excludes the breath and predicts 0. -/
theorem C5_single_span_counterexample :
    flScoreOf flowSingle 1 {} = 100 ∧
    specFlScoreOf flowSingle 1 {} = 0 ∧
    flScoreOf flowSingle 1 {} ≠ specFlScoreOf flowSingle 1 {} :=
  ⟨by decide, by decide, by decide⟩

/-- C5 (amended): a breath with an inspiratory span of at least 10 samples,
peak at least 0.1, a first normalized sample exceeding `flTopPercentage` at
`f` and a last one at `l ≥ f` — a single-index span `l = f` qualifies,
since the source compares `f` against `l + 1` — gets flatness
`clamp(0, 100, (flFlatnessTarget - variance over [f, l]) / flFlatnessTarget
× 100)`; the analyzer's result is the mean flatness over qualifying breaths
(0 when none qualify); a variance-0 top span under the default target 0.05
yields flatness 100. -/
theorem C5_amended_flow_limitation :
    (∀ (flow : List ℚ) (p t : ℚ) (b : Breath) (mx : ℚ) (f l : ℕ),
      10 ≤ (inspFlowOf flow b).length →
      (inspFlowOf flow b).max? = some mx →
      1 / 10 ≤ mx →
      f < (normFlowOf flow b mx).length →
      p < (normFlowOf flow b mx).getD f 0 →
      (∀ k < f, (normFlowOf flow b mx).getD k 0 ≤ p) →
      l < (normFlowOf flow b mx).length →
      p < (normFlowOf flow b mx).getD l 0 →
      (∀ k, k < (normFlowOf flow b mx).length → l < k →
        (normFlowOf flow b mx).getD k 0 ≤ p) →
      f ≤ l →
      breathFlatness? flow p t b =
        some (max 0 (min 100
          ((t - spanVariance (normFlowOf flow b mx) f l) / t * 100)))) ∧
    (∀ (flow : List ℚ) (rate : ℚ) (s : WobbleSettings),
      flScoreOf flow rate s =
        (let scores := (segment flow rate).filterMap
          (breathFlatness? flow (jsOr s.flTopPercentage (1 / 2))
            (jsOr s.flFlatnessTarget (1 / 20)))
         if 0 < scores.length then scores.sum / (scores.length : ℚ) else 0)) ∧
    breathFlatness? flowFlat (1 / 2) (1 / 20) breathFlat = some 100 ∧
    flScoreOf flowFlat 1 {} = 100 := by
  refine ⟨?_, fun flow rate s => rfl, by decide, by decide⟩
  intro flow p t b mx f l h10 hmax hmx hflen hfgt hfmin hllen hlgt hlmax hfl
  have hlen_eq : (normFlowOf flow b mx).length = (inspFlowOf flow b).length := by
    unfold normFlowOf
    exact List.length_map _ _
  have hfind : (normFlowOf flow b mx).findIdx? (fun v => decide (p < v)) =
      some f :=
    findIdx?_first _ 0 _ f hflen (decide_eq_true hfgt)
      (fun k hk => decide_eq_false (not_lt.mpr (hfmin k hk)))
  have hrev : (normFlowOf flow b mx).reverse.findIdx? (fun v => decide (p < v)) =
      some ((normFlowOf flow b mx).length - 1 - l) :=
    findIdx?_reverse_last _ 0 _ l hllen (decide_eq_true hlgt)
      (fun k hk1 hk2 => decide_eq_false (not_lt.mpr (hlmax k hk2 hk1)))
  unfold breathFlatness?
  rw [show jsSlice flow b.inspStart b.inspEnd = inspFlowOf flow b from rfl,
    if_neg (by omega), hmax]
  dsimp only
  rw [if_neg (by linarith)]
  rw [show (inspFlowOf flow b).map (fun v => v / mx) = normFlowOf flow b mx
    from rfl]
  unfold jsFindIndex
  rw [hfind, hrev]
  rw [if_pos ?hcond]
  case hcond =>
    constructor
    · exact Int.natCast_nonneg f
    · push_cast
      omega
  congr 2
  have htoNat1 : ((f : ℤ)).toNat = f := Int.toNat_natCast f
  have htoNat2 : (((normFlowOf flow b mx).length : ℤ) -
      ((normFlowOf flow b mx).length - 1 - l : ℕ)).toNat = l + 1 := by
    omega
  rw [htoNat1, htoNat2]
  unfold spanVariance jsSlice
  rfl

/-- Witness for C5 (amended) at `flowSingle`: the breath's normalized top
span is the single index 9 (`f = l = 9`), variance 0, flatness 100. -/
theorem C5_amended_flow_limitation_witness :
    breathFlatness? flowSingle (1 / 2) (1 / 20) breathSingle =
      some (max 0 (min 100
        ((1 / 20 - spanVariance (normFlowOf flowSingle breathSingle (11 / 100)) 9 9) /
          (1 / 20) * 100))) :=
  C5_amended_flow_limitation.1 flowSingle (1 / 2) (1 / 20) breathSingle
    (11 / 100) 9 9
    (by decide) (by decide) (by decide) (by decide) (by decide) (by decide)
    (by decide) (by decide) (by decide) (by decide)

theorem arousalScan_fold_mem (ms : List BreathMetric) (w θr θv : ℚ) :
    ∀ (L : List ℕ) (acc : List ℚ) (tval : ℚ),
      tval ∈ L.foldl (arousalStep ms w θr θv) acc →
      tval ∈ acc ∨ ∃ i ∈ L, arousalQualifies ms w θr θv i = true ∧
        (ms.getD i default).time = tval
  | [], acc, tval, h => Or.inl h
  | i :: L', acc, tval, h => by
    rw [List.foldl_cons] at h
    rcases arousalScan_fold_mem ms w θr θv L' (arousalStep ms w θr θv acc i)
      tval h with h1 | ⟨j, hj1, hj2, hj3⟩
    · unfold arousalStep at h1
      by_cases hq : arousalQualifies ms w θr θv i = true
      · rw [if_pos hq] at h1
        by_cases hr : (acc.getLast?.elim false
            (fun tm => decide ((ms.getD i default).time - tm < 15))) = true
        · rw [if_pos hr] at h1
          exact Or.inl h1
        · rw [if_neg hr] at h1
          rcases List.mem_append.mp h1 with h2 | h2
          · exact Or.inl h2
          · exact Or.inr ⟨i, List.mem_cons_self i L', hq,
              (List.mem_singleton.mp h2).symm⟩
      · rw [if_neg hq] at h1
        exact Or.inl h1
    · exact Or.inr ⟨j, List.mem_cons_of_mem i hj1, hj2, hj3⟩

theorem arousalScan_fold_chain (ms : List BreathMetric) (w θr θv : ℚ) :
    ∀ (L : List ℕ) (acc : List ℚ),
      acc.Chain' (fun a b => 15 ≤ b - a) →
      (L.foldl (arousalStep ms w θr θv) acc).Chain' (fun a b => 15 ≤ b - a)
  | [], _, hacc => hacc
  | i :: L', acc, hacc => by
    rw [List.foldl_cons]
    apply arousalScan_fold_chain ms w θr θv L'
    unfold arousalStep
    by_cases hq : arousalQualifies ms w θr θv i = true
    · rw [if_pos hq]
      by_cases hr : (acc.getLast?.elim false
          (fun tm => decide ((ms.getD i default).time - tm < 15))) = true
      · rw [if_pos hr]
        exact hacc
      · rw [if_neg hr]
        rw [List.chain'_append]
        refine ⟨hacc, List.chain'_singleton _, ?_⟩
        intro x hx y hy
        rw [List.head?_cons, Option.mem_def] at hy
        cases hy
        rw [Option.mem_def] at hx
        rw [hx] at hr
        simp only [Option.elim_some, decide_eq_true_eq] at hr
        exact not_lt.mp hr
    · rw [if_neg hq]
      exact hacc

/-- C6: arousal estimation.  Every recorded arousal time belongs to a metric
whose baseline window holds at least 5 metrics and whose rate or volume
increase over the baseline mean exceeds its threshold; consecutive recorded
arousals are at least 15 seconds apart (so two qualifying increases within
15 seconds produce one recorded arousal, as the concrete `msDebounce` run
shows); with at least 10 breaths and positive duration the reported value
is the recorded count divided by the duration in hours. -/
theorem C6_arousal_estimation :
    (∀ (ms : List BreathMetric) (w θr θv : ℚ) (tval : ℚ),
      tval ∈ arousalScan ms w θr θv →
      ∃ i, i < ms.length ∧ (ms.getD i default).time = tval ∧
        (let m := ms.getD i default
         let base := (ms.drop (baselineStartIdx w i m)).take
           (i - baselineStartIdx w i m)
         5 ≤ base.length ∧
         (jsRatioGt (m.rate - (base.map (fun x => x.rate)).sum / (base.length : ℚ))
            ((base.map (fun x => x.rate)).sum / (base.length : ℚ)) θr = true ∨
          jsRatioGt (m.volume - (base.map (fun x => x.volume)).sum / (base.length : ℚ))
            ((base.map (fun x => x.volume)).sum / (base.length : ℚ)) θv = true))) ∧
    (∀ (ms : List BreathMetric) (w θr θv : ℚ),
      (arousalScan ms w θr θv).Chain' (fun a b => 15 ≤ b - a)) ∧
    (∀ (flow : List ℚ) (rate : ℚ) (s : WobbleSettings),
      10 ≤ (segment flow rate).length →
      0 < totalDurationHoursOf flow rate →
      arousalsOf flow rate s =
        ((arousalScan (breathMetricsOf flow rate (segment flow rate))
          (jsOr s.arousalBaselineWindowSec 120)
          (jsOr s.arousalRateIncreaseMin (1 / 5))
          (jsOr s.arousalVolIncreaseMin (3 / 10))).length : ℚ) /
          totalDurationHoursOf flow rate) ∧
    (arousalQualifies msDebounce 120 (1 / 5) (3 / 10) 6 = true ∧
     arousalQualifies msDebounce 120 (1 / 5) (3 / 10) 7 = true ∧
     (msDebounce.getD 7 default).time - (msDebounce.getD 6 default).time < 15 ∧
     arousalScan msDebounce 120 (1 / 5) (3 / 10) = [28]) := by
  refine ⟨?_, ?_, ?_, by decide, by decide, by decide, by decide⟩
  · intro ms w θr θv tval htv
    rcases arousalScan_fold_mem ms w θr θv (List.range ms.length) [] tval htv with
      h | ⟨i, hi1, hi2, hi3⟩
    · exact absurd h (List.not_mem_nil tval)
    · refine ⟨i, List.mem_range.mp hi1, hi3, ?_⟩
      simp only [arousalQualifies] at hi2
      by_cases hlen : ((ms.drop (baselineStartIdx w i (ms.getD i default))).take
          (i - baselineStartIdx w i (ms.getD i default))).length < 5
      · rw [if_pos hlen] at hi2
        exact Bool.noConfusion hi2
      · rw [if_neg hlen, Bool.or_eq_true] at hi2
        exact ⟨by omega, hi2⟩
  · intro ms w θr θv
    exact arousalScan_fold_chain ms w θr θv (List.range ms.length) []
      List.chain'_nil
  · intro flow rate s h10 hpos
    simp only [arousalsOf]
    rw [if_pos ⟨h10, hpos⟩]

theorem C6_arousal_estimation_witness :
    10 ≤ (segment flowAlt 1).length ∧ 0 < totalDurationHoursOf flowAlt 1 ∧
    arousalsOf flowAlt 1 {} =
      ((arousalScan (breathMetricsOf flowAlt 1 (segment flowAlt 1))
        (jsOr ({} : WobbleSettings).arousalBaselineWindowSec 120)
        (jsOr ({} : WobbleSettings).arousalRateIncreaseMin (1 / 5))
        (jsOr ({} : WobbleSettings).arousalVolIncreaseMin (3 / 10))).length : ℚ) /
        totalDurationHoursOf flowAlt 1 :=
  ⟨by decide, by decide,
    C6_arousal_estimation.2.2.1 flowAlt 1 {} (by decide) (by decide)⟩

/-! ## Lemmas: EDF data-record decoding -/

theorem jsToIndex_natCast (k : ℕ) : jsToIndex (some (k : ℤ)) = some k := by
  simp [jsToIndex]

theorem readSample_inv {buf : List ℕ} {k : ℕ} {p : ℤ × Option ℤ}
    (h : readSample buf (some (k : ℤ)) = some p) :
    p = (int16At buf k, some ((k : ℤ) + 2)) := by
  rw [readSample] at h
  simp only [Option.bind_eq_bind, jsToIndex_natCast, Option.some_bind,
    Option.map_some'] at h
  split at h
  · exact ((Option.some.injEq _ _).mp h).symm
  · exact absurd h (by simp)

theorem readSamples_inv (buf : List ℕ) :
    ∀ (n : ℕ) (k : ℕ) (out : List ℤ × Option ℤ),
      readSamples buf n (some (k : ℤ)) = some out →
      out = ((List.range n).map (fun s => int16At buf (k + 2 * s)),
             some ((k : ℤ) + 2 * n))
  | 0, k, out, h => by
    simp only [readSamples] at h
    cases h
    simp
  | n + 1, k, out, h => by
    rw [readSamples] at h
    simp only [Option.bind_eq_bind, Option.bind_eq_some] at h
    obtain ⟨⟨d, off'⟩, h1, ⟨rest, off''⟩, h2, h3⟩ := h
    have h1' := readSample_inv h1
    rw [Prod.mk.injEq] at h1'
    obtain ⟨hd, hoff⟩ := h1'
    subst hd hoff
    have hcast : ((k : ℤ) + 2) = ((k + 2 : ℕ) : ℤ) := by push_cast; ring
    rw [hcast] at h2
    have h2' := readSamples_inv buf n (k + 2) (rest, off'') h2
    rw [Prod.mk.injEq] at h2'
    obtain ⟨hrest, hoff2⟩ := h2'
    subst hrest hoff2
    cases h3
    rw [Prod.mk.injEq]
    constructor
    · rw [List.range_succ_eq_map, List.map_cons, List.map_map]
      refine congrArg₂ List.cons ?_ ?_
      · exact congrArg (int16At buf) (by omega)
      · exact List.map_congr_left (fun t _ =>
          congrArg (int16At buf) (by omega))
    · refine congrArg some ?_
      push_cast
      ring

theorem totalSpr_cons (sig : EDFSignal) (rest : List EDFSignal) :
    totalSpr (sig :: rest) = sprCount sig + totalSpr rest := by
  simp [totalSpr]

theorem recordOnce_inv (buf : List ℕ) :
    ∀ (sigs : List EDFSignal) (k : ℕ) (out : List EDFSignal × Option ℤ),
      recordOnce buf sigs (some (k : ℤ)) = some out →
      out = (recordChunks buf k sigs, some ((k : ℤ) + 2 * totalSpr sigs))
  | [], k, out, h => by
    simp only [recordOnce] at h
    cases h
    simp [recordChunks, totalSpr]
  | sig :: rest, k, out, h => by
    rw [recordOnce] at h
    simp only [Option.bind_eq_bind, Option.bind_eq_some] at h
    obtain ⟨⟨ds, off'⟩, h1, ⟨rest', off''⟩, h2, h3⟩ := h
    have h1' := readSamples_inv buf (sprCount sig) k (ds, off') h1
    rw [Prod.mk.injEq] at h1'
    obtain ⟨hds, hoff⟩ := h1'
    subst hds hoff
    have hcast : ((k : ℤ) + 2 * sprCount sig) = ((k + 2 * sprCount sig : ℕ) : ℤ) := by
      push_cast; ring
    rw [hcast] at h2
    have h2' := recordOnce_inv buf rest (k + 2 * sprCount sig) (rest', off'') h2
    rw [Prod.mk.injEq] at h2'
    obtain ⟨hrest, hoff2⟩ := h2'
    subst hrest hoff2
    cases h3
    rw [Prod.mk.injEq]
    constructor
    · simp only [recordChunks, List.map_map]
      rfl
    · rw [totalSpr_cons]
      refine congrArg some ?_
      push_cast
      ring

theorem recordsLoop_inv (buf : List ℕ) :
    ∀ (r : ℕ) (sigs : List EDFSignal) (k : ℕ) (out : List EDFSignal),
      recordsLoop buf r sigs (some (k : ℤ)) = some out →
      out = loopChunks buf k r sigs
  | 0, sigs, k, out, h => by
    simp only [recordsLoop] at h
    cases h
    rfl
  | r + 1, sigs, k, out, h => by
    rw [recordsLoop] at h
    simp only [Option.bind_eq_bind, Option.bind_eq_some] at h
    obtain ⟨⟨sigs', off'⟩, h1, h2⟩ := h
    have h1' := recordOnce_inv buf sigs k (sigs', off') h1
    rw [Prod.mk.injEq] at h1'
    obtain ⟨hsigs, hoff⟩ := h1'
    subst hsigs hoff
    have hcast : ((k : ℤ) + 2 * totalSpr sigs) =
        ((k + 2 * totalSpr sigs : ℕ) : ℤ) := by push_cast; ring
    rw [hcast] at h2
    exact recordsLoop_inv buf r (recordChunks buf k sigs)
      (k + 2 * totalSpr sigs) out h2

theorem length_recordChunks (buf : List ℕ) :
    ∀ (sigs : List EDFSignal) (k : ℕ),
      (recordChunks buf k sigs).length = sigs.length
  | [], _ => rfl
  | sig :: rest, k => by
    simp only [recordChunks, List.length_cons, length_recordChunks buf rest]

theorem sprCount_map_recordChunks (buf : List ℕ) :
    ∀ (sigs : List EDFSignal) (k : ℕ),
      (recordChunks buf k sigs).map sprCount = sigs.map sprCount
  | [], _ => rfl
  | sig :: rest, k => by
    simp only [recordChunks, List.map_cons]
    exact congrArg₂ List.cons rfl (sprCount_map_recordChunks buf rest _)

theorem totalSpr_recordChunks (buf : List ℕ) (sigs : List EDFSignal) (k : ℕ) :
    totalSpr (recordChunks buf k sigs) = totalSpr sigs := by
  unfold totalSpr
  rw [sprCount_map_recordChunks]

theorem take_recordChunks (buf : List ℕ) :
    ∀ (sigs : List EDFSignal) (k c : ℕ),
      (recordChunks buf k sigs).take c = recordChunks buf k (sigs.take c)
  | [], k, c => by simp [recordChunks, List.take_nil]
  | sig :: rest, k, 0 => by simp [recordChunks]
  | sig :: rest, k, c + 1 => by
    simp only [recordChunks, List.take_succ_cons]
    exact congrArg₂ List.cons rfl (take_recordChunks buf rest _ c)

theorem prefixSpr_recordChunks (buf : List ℕ) (sigs : List EDFSignal) (k c : ℕ) :
    prefixSpr (recordChunks buf k sigs) c = prefixSpr sigs c := by
  unfold prefixSpr
  rw [take_recordChunks, totalSpr_recordChunks]

theorem length_loopChunks (buf : List ℕ) :
    ∀ (r : ℕ) (sigs : List EDFSignal) (k : ℕ),
      (loopChunks buf k r sigs).length = sigs.length
  | 0, _, _ => rfl
  | r + 1, sigs, k => by
    simp only [loopChunks]
    rw [length_loopChunks buf r, length_recordChunks]

theorem totalSpr_loopChunks (buf : List ℕ) :
    ∀ (r : ℕ) (sigs : List EDFSignal) (k : ℕ),
      totalSpr (loopChunks buf k r sigs) = totalSpr sigs
  | 0, _, _ => rfl
  | r + 1, sigs, k => by
    simp only [loopChunks]
    rw [totalSpr_loopChunks buf r, totalSpr_recordChunks]

theorem prefixSpr_loopChunks (buf : List ℕ) :
    ∀ (r : ℕ) (sigs : List EDFSignal) (k c : ℕ),
      prefixSpr (loopChunks buf k r sigs) c = prefixSpr sigs c
  | 0, _, _, _ => rfl
  | r + 1, sigs, k, c => by
    simp only [loopChunks]
    rw [prefixSpr_loopChunks buf r, prefixSpr_recordChunks]

theorem recordChunks_getElem? (buf : List ℕ) :
    ∀ (sigs : List EDFSignal) (k c : ℕ) (sig : EDFSignal),
      sigs[c]? = some sig →
      (recordChunks buf k sigs)[c]? =
        some { sig with physicalValues :=
          sig.physicalValues ++ sampleChunk buf sig (k + 2 * prefixSpr sigs c) }
  | [], k, c, sig, h => by simp at h
  | s0 :: rest, k, 0, sig, h => by
    rw [List.getElem?_cons_zero] at h
    cases h
    simp [recordChunks, prefixSpr, totalSpr]
  | s0 :: rest, k, c + 1, sig, h => by
    rw [List.getElem?_cons_succ] at h
    simp only [recordChunks, List.getElem?_cons_succ]
    rw [recordChunks_getElem? buf rest (k + 2 * sprCount s0) c sig h]
    have hoff : k + 2 * sprCount s0 + 2 * prefixSpr rest c
        = k + 2 * prefixSpr (s0 :: rest) (c + 1) := by
      have hpre : prefixSpr (s0 :: rest) (c + 1) = sprCount s0 + prefixSpr rest c := by
        simp [prefixSpr, List.take_succ_cons, totalSpr]
      omega
    rw [hoff]

theorem loopChunks_getElem? (buf : List ℕ) :
    ∀ (r : ℕ) (sigs : List EDFSignal) (k c : ℕ) (sig : EDFSignal),
      sigs[c]? = some sig →
      (loopChunks buf k r sigs)[c]? =
        some { sig with physicalValues :=
          sig.physicalValues ++ ((List.range r).map (fun rec =>
            sampleChunk buf sig
              (k + 2 * (rec * totalSpr sigs + prefixSpr sigs c)))).flatten }
  | 0, sigs, k, c, sig, h => by
    simp only [loopChunks, List.range_zero, List.map_nil, List.flatten_nil,
      List.append_nil]
    rw [h]
  | r + 1, sigs, k, c, sig, h => by
    have h' := recordChunks_getElem? buf sigs k c sig h
    simp only [loopChunks]
    rw [loopChunks_getElem? buf r (recordChunks buf k sigs)
      (k + 2 * totalSpr sigs) c _ h']
    simp only [totalSpr_recordChunks, prefixSpr_recordChunks]
    have hpv : (sig.physicalValues ++ sampleChunk buf sig (k + 2 * prefixSpr sigs c)) ++
        ((List.range r).map (fun rec => sampleChunk buf sig
          (k + 2 * totalSpr sigs +
            2 * (rec * totalSpr sigs + prefixSpr sigs c)))).flatten
      = sig.physicalValues ++ ((List.range (r + 1)).map (fun rec => sampleChunk buf sig
          (k + 2 * (rec * totalSpr sigs + prefixSpr sigs c)))).flatten := by
      rw [List.append_assoc]
      refine congrArg (fun t => sig.physicalValues ++ t) ?_
      rw [List.range_succ_eq_map, List.map_cons, List.flatten_cons, List.map_map]
      refine congrArg₂ (· ++ ·) ?_ ?_
      · exact congrArg (sampleChunk buf sig) (by omega)
      · refine congrArg List.flatten (List.map_congr_left (fun rec _ => ?_))
        refine congrArg (sampleChunk buf sig) ?_
        show k + 2 * totalSpr sigs + 2 * (rec * totalSpr sigs + prefixSpr sigs c)
          = k + 2 * (Nat.succ rec * totalSpr sigs + prefixSpr sigs c)
        simp only [Nat.succ_eq_add_one]
        ring
    exact congrArg (fun v => some { sig with physicalValues := v }) hpv

theorem sampleChunk_length (buf : List ℕ) (sig : EDFSignal) (base : ℕ) :
    (sampleChunk buf sig base).length = sprCount sig := by
  simp [sampleChunk]

theorem sprCount_setPV (sig : EDFSignal) (v : List (Option ℚ)) :
    sprCount { sig with physicalValues := v } = sprCount sig := rfl

theorem flatten_range_map_length {α : Type} (f : ℕ → List α) (L : ℕ)
    (hf : ∀ i, (f i).length = L) :
    ∀ r, (((List.range r).map f).flatten).length = r * L := by
  intro r
  induction r with
  | zero => simp
  | succ n ih =>
    rw [List.range_succ, List.map_append, List.flatten_append]
    simp [ih, hf, Nat.succ_mul]

theorem flatten_range_map_getElem? {α : Type} (f : ℕ → List α) (L : ℕ)
    (hf : ∀ i, (f i).length = L) :
    ∀ (r a b : ℕ), a < r → b < L →
      (((List.range r).map f).flatten)[a * L + b]? = (f a)[b]? := by
  intro r
  induction r with
  | zero => intro a b ha _; exact absurd ha (Nat.not_lt_zero a)
  | succ n ih =>
    intro a b ha hb
    rw [List.range_succ, List.map_append, List.flatten_append]
    rcases Nat.lt_or_ge a n with hlt | hge
    · have h1 : a * L + b < n * L := by
        have h2 : (a + 1) * L ≤ n * L := Nat.mul_le_mul_right L (by omega)
        have h3 : (a + 1) * L = a * L + L := by ring
        omega
      rw [List.getElem?_append, if_pos (by
        rw [flatten_range_map_length f L hf]; exact h1)]
      exact ih a b hlt hb
    · have ha' : a = n := by omega
      subst ha'
      rw [List.getElem?_append_right (by
        rw [flatten_range_map_length f L hf]; omega)]
      rw [flatten_range_map_length f L hf]
      have hidx : a * L + b - a * L = b := by omega
      rw [hidx]
      simp

theorem mapM_getElem? {α β : Type} (f : α → Option β) :
    ∀ (l : List α) (out : List β), l.mapM f = some out →
      ∀ c : ℕ, out[c]? = (l[c]?).bind f
  | [], out, h => by
    simp only [List.mapM_nil, Option.pure_def] at h
    cases h
    intro c
    simp
  | a :: l, out, h => by
    rw [List.mapM_cons] at h
    simp only [Option.bind_eq_bind, Option.pure_def, Option.bind_eq_some] at h
    obtain ⟨b, hb, bs, hbs, h3⟩ := h
    cases h3
    intro c
    cases c with
    | zero => simp [hb]
    | succ c' =>
      rw [List.getElem?_cons_succ, List.getElem?_cons_succ]
      exact mapM_getElem? f l bs hbs c'

theorem parseSignalAt_inv {buf : List ℕ} {rds : Option ℚ} {ns i : ℕ}
    {sig : EDFSignal} (h : parseSignalAt buf rds ns i = some sig) :
    sig.physicalValues = [] ∧
    sig.scaleFactor = jsDivOpt (optSubQ sig.physicalMax sig.physicalMin)
      (match sig.digitalMax, sig.digitalMin with
       | some a, some b => some ((a : ℚ) - (b : ℚ))
       | _, _ => none) := by
  rw [parseSignalAt] at h
  simp only [Option.bind_eq_bind, Option.bind_eq_some] at h
  obtain ⟨l1, _, l2, _, l3, _, l4, _, l5, _, l6, _, l7, _, l8, _, l9, _, h⟩ := h
  cases h
  exact ⟨rfl, rfl⟩

/-- C1: for every buffer the parser accepts, every channel `c`, record `r`
and sample `s`, the decoded waveform value of channel `c` at position
`r·samplesPerRecord + s` is `(d − digitalMin)·(physicalMax − physicalMin)/
(digitalMax − digitalMin) + physicalMin` where `d` is the little-endian
signed 16-bit integer at byte
`headerBytes + 2·(r·totalSamplesPerRecord + prefixSamples(c) + s)`, and the
waveform length is exactly `samplesPerRecord·numDataRecords`. -/
theorem C1_sample_decoding (buf : List ℕ) (res : EDFResult) (c : ℕ)
    (sig : EDFSignal) (hb : ℤ) (pmin pmax : ℚ) (dmin dmax : ℤ) (r s : ℕ)
    (hp : EDFParser.parse buf = some res)
    (hsig : res.signals[c]? = some sig)
    (hhb : res.metadata.headerBytes = some hb)
    (hb0 : 0 ≤ hb)
    (hpmin : sig.physicalMin = some pmin)
    (hpmax : sig.physicalMax = some pmax)
    (hdmin : sig.digitalMin = some dmin)
    (hdmax : sig.digitalMax = some dmax)
    (hdd : dmax ≠ dmin)
    (hr : r < (res.metadata.numDataRecords.getD 0).toNat)
    (hs : s < sprCount sig) :
    sig.physicalValues.length =
      sprCount sig * (res.metadata.numDataRecords.getD 0).toNat ∧
    sig.physicalValues[r * sprCount sig + s]? =
      some (some ((((int16At buf (hb.toNat +
          2 * (r * totalSpr res.signals + prefixSpr res.signals c + s))) : ℚ) -
        (dmin : ℚ)) * ((pmax - pmin) / ((dmax : ℚ) - (dmin : ℚ))) + pmin)) := by
  rw [EDFParser.parse] at hp
  simp only [Option.bind_eq_bind, Option.bind_eq_some] at hp
  obtain ⟨strs, hstrs, rd, hrd, sigs0, hsigs0, sigsF, hloop, hres⟩ := hp
  cases hres
  dsimp only at hsig hhb hr ⊢
  rw [hhb] at hloop
  rw [show (hb : ℤ) = ((hb.toNat : ℕ) : ℤ) from (Int.toNat_of_nonneg hb0).symm]
    at hloop
  have hF := recordsLoop_inv buf _ sigs0 hb.toNat sigsF hloop
  subst hF
  have hc : c < sigs0.length := by
    obtain ⟨hlt, -⟩ := List.getElem?_eq_some.mp hsig
    rw [length_loopChunks] at hlt
    exact hlt
  have hs0 : sigs0[c]? = some sigs0[c] := List.getElem?_eq_getElem hc
  have hmap := mapM_getElem? _ _ _ hsigs0 c
  rw [hs0] at hmap
  have hcns : c < ((mkHeader strs rd).numSignals.getD 0).toNat := by
    by_contra hge
    rw [List.getElem?_eq_none (by
      simpa [List.length_range] using Nat.le_of_not_lt hge),
      Option.none_bind] at hmap
    exact Option.noConfusion hmap
  rw [List.getElem?_range hcns, Option.some_bind] at hmap
  have hfields := parseSignalAt_inv hmap.symm
  rw [loopChunks_getElem? buf _ sigs0 hb.toNat c _ hs0] at hsig
  have hsigeq := (Option.some.injEq _ _).mp hsig
  subst hsigeq
  dsimp only at hpmin hpmax hdmin hdmax hs ⊢
  simp only [sprCount_setPV] at hs ⊢
  obtain ⟨hpv0, hsf⟩ := hfields
  rw [hpv0, List.nil_append]
  have hLchunk : ∀ i, (sampleChunk buf sigs0[c]
      (hb.toNat + 2 * (i * totalSpr sigs0 + prefixSpr sigs0 c))).length
      = sprCount sigs0[c] := fun i => sampleChunk_length buf _ _
  constructor
  · rw [flatten_range_map_length _ _ hLchunk]
    exact Nat.mul_comm _ _
  · rw [totalSpr_loopChunks, prefixSpr_loopChunks]
    rw [flatten_range_map_getElem? _ _ hLchunk _ r s hr hs]
    rw [sampleChunk]
    rw [List.getElem?_map, List.getElem?_range hs, Option.map_some']
    rw [convertSample, hsf, hdmax, hdmin, hpmax, hpmin]
    dsimp only [optSubQ, jsDivOpt]
    rw [if_neg (sub_ne_zero.mpr (by exact_mod_cast hdd))]
    have hoff : hb.toNat + 2 * (r * totalSpr sigs0 + prefixSpr sigs0 c) + 2 * s
        = hb.toNat + 2 * (r * totalSpr sigs0 + prefixSpr sigs0 c + s) := by ring
    rw [hoff]

theorem C1_sample_decoding_witness :
    sigWF.physicalValues.length =
      sprCount sigWF * (resWF.metadata.numDataRecords.getD 0).toNat ∧
    sigWF.physicalValues[0 * sprCount sigWF + 1]? =
      some (some ((((int16At bufWF ((512 : ℤ).toNat +
          2 * (0 * totalSpr resWF.signals + prefixSpr resWF.signals 0 + 1))) : ℚ) -
        ((0 : ℤ) : ℚ)) * (((10 : ℚ) - (0 : ℚ)) / (((10 : ℤ) : ℚ) - ((0 : ℤ) : ℚ))) +
        (0 : ℚ))) :=
  C1_sample_decoding bufWF resWF 0 sigWF 512 0 10 0 10 0 1
    (by rfl) (by rfl) (by rfl) (by decide) (by rfl) (by rfl) (by rfl) (by rfl)
    (by decide) (by decide) (by decide)

/-- C2 counterexample: the parser does NOT reject a channel with
`digitalMax = digitalMin` — `bufDegen` (digital range `0..0`) decodes
successfully, with a non-finite scale factor and non-finite physical
values instead of a failure; and it does not reject an unparseable
numeric header field — `bufBadNdr` (`numDataRecords = "XX"`) also decodes
successfully. -/
theorem C2_no_format_error_counterexample :
    (EDFParser.parse bufDegen).isSome = true ∧
    ((EDFParser.parse bufDegen).getD default).signals.map
      (fun s => s.scaleFactor) = [none] ∧
    ((EDFParser.parse bufDegen).getD default).signals.map
      (fun s => s.physicalValues) = [[none, none]] ∧
    (EDFParser.parse bufBadNdr).isSome = true :=
  ⟨by decide, by decide, by decide, by decide⟩

theorem parseHeaderStrs_none_of_short {buf : List ℕ} (h : buf.length < 256) :
    parseHeaderStrs buf = none := by
  cases hp : parseHeaderStrs buf with
  | none => rfl
  | some strs =>
    exfalso
    rw [parseHeaderStrs] at hp
    simp only [Option.bind_eq_bind, Option.bind_eq_some] at hp
    obtain ⟨a1, -, a2, -, a3, -, a4, -, a5, -, a6, -, a7, -, a8, -, a9, -,
      a10, h10, -⟩ := hp
    rw [getStr] at h10
    split at h10
    · omega
    · exact Option.noConfusion h10

/-- C2 (amended): the parser has no `FormatError` path at all.  It fails
only when a read runs past the end of the buffer — in particular every
buffer shorter than the fixed 256-byte header is rejected — while a
degenerate digital range (`digitalMax = digitalMin`) and an unparseable
`numDataRecords` field are both accepted silently. -/
theorem C2_amended_parse_failures :
    (∀ buf : List ℕ, buf.length < 256 → EDFParser.parse buf = none) ∧
    (EDFParser.parse bufDegen).isSome = true ∧
    (EDFParser.parse bufBadNdr).isSome = true := by
  refine ⟨?_, by decide, by decide⟩
  intro buf h
  rw [EDFParser.parse, parseHeaderStrs_none_of_short h]
  rfl

theorem C2_amended_parse_failures_witness :
    ([] : List ℕ).length < 256 ∧ EDFParser.parse [] = none :=
  ⟨by decide, C2_amended_parse_failures.1 [] (by decide)⟩

end Megascore
